import Mathlib

/-!
Shallow embedding of the job-scheduling core of `src/main.py` (classes
`TaskManager`, `WebSocketServer`, and the dispatch loop `Api._execute_tasks`),
together with theorems checking the natural-language specification against it.

Modelling conventions:
- timestamps are natural numbers (seconds); `datetime` subtraction becomes
  truncated `Nat` subtraction (the behaviours the claims exercise only involve
  non-negative elapsed times);
- Python `dict` (insertion ordered) becomes an association list; assignment
  replaces in place, otherwise appends; deletion removes the key;
- the job/worker id strings `"task_{n}_{stamp}"` and `"c{n}_{t%10000}"` are
  injective renderings of the pair of their numeric components, so ids are
  modelled as those pairs;
- external collaborators (websocket send, filesystem writes, image
  compression/thumbnailing) are out of scope per the spec; their outcomes
  enter as explicit boolean/string parameters of the corresponding step.
-/

namespace Veo3

/-- Job status.  The source stores Chinese strings; the mapping is:
`pending` = 等待中, `processing` = 处理中, `completed` = 已完成,
`failed` = 失败, `downloadFailed` = 下载失败, `timedOut` = 超时. -/
inductive Status where
  | pending
  | processing
  | completed
  | failed
  | downloadFailed
  | timedOut
deriving Repr, DecidableEq

/-- Job identifier.  The source renders it as the string
`"task_{idx}_{stamp}"` (`add_task`), which is injective in `(idx, stamp)`,
so the pair is kept directly. -/
structure TaskId where
  idx : Nat
  stamp : Nat
deriving Repr, DecidableEq

def mkTaskId (n stamp : Nat) : TaskId := ⟨n, stamp⟩

/-- Worker identifier.  The source renders it as the string
`"c{num}_{int(time.time()) % 10000}"` (`register_client`), which is injective
in `(num, tmod)`, so the pair is kept directly. -/
structure ClientId where
  num : Nat
  tmod : Nat
deriving Repr, DecidableEq

/-- `register_client` computes the id from the pool size (after the same-page
eviction) and the registration time. -/
def mkClientId (n t : Nat) : ClientId := ⟨n, t % 10000⟩

/-- One entry of `TaskManager.clients`.  The raw websocket handle `ws` is an
external connection object; its only use is sending, whose outcome is a
parameter of the dispatch step. -/
structure ClientInfo where
  url : String
  busy : Bool
  taskId : Option TaskId
  page_number : Nat
  last_task_end : Option Nat
deriving Repr, DecidableEq

/-- One entry of `TaskManager.tasks` (a Python dict in the source; the
`preview_base64` thumbnail produced by the external image collaborator is
omitted). -/
structure Task where
  id : TaskId
  prompt : String
  status : Status
  status_detail : String
  file_ext : String
  output_dir : Option String
  client_id : Option ClientId
  task_type : String
  aspect : String
  resolution : String
  reference_images : List String
  start_time : Option Nat
  end_time : Option Nat
  import_row_number : Option String
  saved_path : Option String
  output_dir_path : Option String
deriving Repr, DecidableEq

abbrev ClientDict := List (ClientId × ClientInfo)

/-- The mutable state of `TaskManager`. -/
structure TMState where
  tasks : List Task
  current_index : Nat
  clients : ClientDict
  next_page_number : Nat
deriving Repr, DecidableEq

def TASK_TIMEOUT_SECONDS : Nat := 600
def CLIENT_COOLDOWN_SECONDS : Nat := 3

/-! ### Python dict operations on the insertion-ordered association list -/

/-- `d[k] = v`: replace in place if the key is present, else append. -/
def dictSet (k : ClientId) (v : ClientInfo) : ClientDict → ClientDict
  | [] => [(k, v)]
  | p :: r => if p.1 = k then (k, v) :: r else p :: dictSet k v r

/-- `d.get(k)`. -/
def dictGet (k : ClientId) : ClientDict → Option ClientInfo
  | [] => none
  | p :: r => if p.1 = k then some p.2 else dictGet k r

/-- `del d[k]`. -/
def dictDelete (k : ClientId) : ClientDict → ClientDict
  | [] => []
  | p :: r => if p.1 = k then r else p :: dictDelete k r

/-- In-place mutation of the entry at a key (`d[k]['f'] = x`). -/
def dictModify (k : ClientId) (f : ClientInfo → ClientInfo) : ClientDict → ClientDict
  | [] => []
  | p :: r => if p.1 = k then (p.1, f p.2) :: r else p :: dictModify k f r

/-! ### TaskManager operations -/

/-- `TaskManager.register_client(websocket, page_url)` at clock time `t`.
Evicts every entry sharing `page_url`, then inserts a fresh record under
`mkClientId` of the post-eviction pool size and `t`. -/
def register_client (url : String) (t : Nat) (s : TMState) :
    TMState × ClientId × Nat :=
  let cl1 := s.clients.filter (fun p => decide (¬ p.2.url = url))
  let cid := mkClientId cl1.length t
  let pn := s.next_page_number
  let info : ClientInfo :=
    { url := url, busy := false, taskId := none, page_number := pn,
      last_task_end := none }
  ({ s with clients := dictSet cid info cl1, next_page_number := pn + 1 },
   cid, pn)

/-- The revert-on-disconnect pass of `remove_client`: every task carrying
the departed worker's job id whose status is still `processing` goes back
to `pending` (the loop has no break, and the task's `client_id` field is
not touched). -/
def revertTasks : Option TaskId → List Task → List Task
  | none, ts => ts
  | some tid, ts =>
    ts.map (fun task =>
      if task.id = tid ∧ task.status = Status.processing then
        { task with status := Status.pending }
      else task)

/-- `TaskManager.remove_client(client_id)`: if the worker held a job id and
that job is still `processing`, reset the job's status to `pending`, then
delete the worker.  The scan cursor `current_index` is not modified. -/
def remove_client (cid : ClientId) (s : TMState) : TMState :=
  match dictGet cid s.clients with
  | none => s
  | some info =>
    { s with tasks := revertTasks info.taskId s.tasks,
             clients := dictDelete cid s.clients }

/-- Eligibility test inside `get_idle_client`: not busy, and if a
`last_task_end` stamp exists, at least the cooldown has elapsed. -/
def clientIdle (now : Nat) (info : ClientInfo) : Bool :=
  !info.busy &&
    (match info.last_task_end with
     | none => true
     | some lt => decide (CLIENT_COOLDOWN_SECONDS ≤ now - lt))

/-- `TaskManager.get_idle_client()` at clock time `now`: first worker in
registration order that is idle and out of its cooldown window. -/
def get_idle_client (now : Nat) (s : TMState) : Option (ClientId × ClientInfo) :=
  s.clients.find? (fun p => clientIdle now p.2)

/-- The recurring source pattern `for task in tasks: if task['id'] == tid:
...mutate...; break` — update the first task carrying the given id. -/
def updFirst (tid : TaskId) (g : Task → Task) : List Task → List Task
  | [] => []
  | task :: rest =>
    if task.id = tid then g task :: rest
    else task :: updFirst tid g rest

/-- The task mutation inside `mark_client_busy`: set `client_id` on the first
task with the given id (the source loop breaks after the first match). -/
def setTaskClientFirst (tid : TaskId) (cid : ClientId) (l : List Task) :
    List Task :=
  updFirst tid (fun task => { task with client_id := some cid }) l

/-- `TaskManager.mark_client_busy(client_id, task_id)`. -/
def mark_client_busy (cid : ClientId) (tid : TaskId) (s : TMState) : TMState :=
  if (dictGet cid s.clients).isSome then
    { s with
      clients := dictModify cid
        (fun info => { info with busy := true, taskId := some tid }) s.clients,
      tasks := setTaskClientFirst tid cid s.tasks }
  else s

/-- The record update performed by `mark_client_idle`. -/
def idleUpd (now : Nat) (info : ClientInfo) : ClientInfo :=
  { info with busy := false, taskId := none, last_task_end := some now }

/-- `TaskManager.mark_client_idle(client_id)` at clock time `now`: clears the
busy flag and current job id and stamps `last_task_end = now`. -/
def mark_client_idle (cid : ClientId) (now : Nat) (s : TMState) : TMState :=
  { s with clients := dictModify cid (idleUpd now) s.clients }

/-- `TaskManager.get_client_count()`. -/
def get_client_count (s : TMState) : Nat × Nat :=
  (s.clients.length, (s.clients.filter (fun p => p.2.busy)).length)

/-- `TaskManager.update_task_status_detail(task_id, status_detail)`: sets the
detail on the first matching task (the source returns after the first match). -/
def update_task_status_detail (tid : TaskId) (d : String) (l : List Task) :
    List Task :=
  updFirst tid (fun task => { task with status_detail := d }) l

/-- `needle` is a prefix of the second list. -/
def isPrefixOfChars : List Char → List Char → Bool
  | [], _ => true
  | _ :: _, [] => false
  | c :: cs, d :: ds => c == d && isPrefixOfChars cs ds

/-- Substring containment on character lists. -/
def containsSub : List Char → List Char → Bool
  | [], needle => needle.isEmpty
  | d :: rest, needle =>
    isPrefixOfChars needle (d :: rest) || containsSub rest needle

/-- Python's `sub in s` (the built-in string search is realised on the
character list so that it evaluates inside the kernel). -/
def strContains (s sub : String) : Bool := containsSub s.data sub.data

/-- Python's `str.strip()`, realised on the character list. -/
def strTrim (s : String) : String :=
  ⟨((s.data.dropWhile Char.isWhitespace).reverse.dropWhile
      Char.isWhitespace).reverse⟩

/-- `TaskManager.add_task(...)` with the id timestamp component `stamp`
(the source uses `strftime of now`).  Empty or whitespace-only prompts are
rejected; `Text to Video` forces the reference list empty; the extension is
`.mp4` for video types and `.png` otherwise. -/
def add_task (prompt task_type aspect resolution : String)
    (reference_images : List String) (output_dir : Option String)
    (import_row_number : Option String) (stamp : Nat) (s : TMState) :
    TMState × Option Task :=
  let prompt := strTrim prompt
  if prompt = "" then (s, none)
  else
    let refs := if task_type = "Text to Video" then [] else reference_images
    let tid := mkTaskId s.tasks.length stamp
    let ext := if strContains task_type "Video" then ".mp4" else ".png"
    let task : Task :=
      { id := tid, prompt := prompt, status := Status.pending,
        status_detail := "", file_ext := ext, output_dir := output_dir,
        client_id := none, task_type := task_type, aspect := aspect,
        resolution := resolution, reference_images := refs,
        start_time := none, end_time := none,
        import_row_number := import_row_number,
        saved_path := none, output_dir_path := none }
    ({ s with tasks := s.tasks ++ [task] }, some task)

/-- The scan loop of `TaskManager.get_next_task`, with explicit structural
fuel (the loop runs at most `tasks.length - i` times; fuel `0` is reached
only once the index is past the end of the list). -/
def get_next_task_go (tasks : List Task) : Nat → Nat → Option Task × Nat
  | i, 0 => (none, i)
  | i, fuel + 1 =>
    match tasks.get? i with
    | none => (none, i)
    | some task =>
      if task.status = Status.pending then (some task, i)
      else get_next_task_go tasks (i + 1) fuel

/-- The scan of `TaskManager.get_next_task`: from index `i` forward, return
the first `pending` task and the index it was found at; the cursor is
advanced past every non-pending task encountered. -/
def get_next_task_aux (tasks : List Task) (i : Nat) : Option Task × Nat :=
  get_next_task_go tasks i (tasks.length - i)

/-- `TaskManager.get_next_task()`: returns the found task (if any) and the
state with the cursor moved to the position the scan stopped at. -/
def get_next_task (s : TMState) : Option Task × TMState :=
  let r := get_next_task_aux s.tasks s.current_index
  (r.1, { s with current_index := r.2 })

/-- The timeout condition of `check_timeout_tasks`: status `processing`, a
start stamp present, and strictly more than `TASK_TIMEOUT_SECONDS` elapsed. -/
def timeoutCond (now : Nat) (task : Task) : Bool :=
  decide (task.status = Status.processing) &&
    (match task.start_time with
     | none => false
     | some st => decide (TASK_TIMEOUT_SECONDS < now - st))

/-- The source's f-string `'任务超时（超过10分钟）'` (600 // 60 = 10). -/
def timeoutDetail : String := "任务超时（超过10分钟）"

/-- The in-place mutation applied to a timed-out task. -/
def applyTimeout (now : Nat) (task : Task) : Task :=
  { task with status := Status.timedOut, end_time := some now,
              status_detail := timeoutDetail }

/-- Freeing the worker of a timed-out task: clear `busy` and `task_id` at the
task's `client_id` (note: `last_task_end` is *not* stamped here — the source
writes the two fields directly instead of calling `mark_client_idle`). -/
def freeTaskClient (task : Task) (cl : ClientDict) : ClientDict :=
  match task.client_id with
  | none => cl
  | some cid => dictModify cid
      (fun info => { info with busy := false, taskId := none }) cl

/-- The iteration of `check_timeout_tasks` over the task list, threading the
client dict and collecting the (mutated) timed-out tasks in order. -/
def sweepGo (now : Nat) : List Task → ClientDict →
    List Task × ClientDict × List Task
  | [], cl => ([], cl, [])
  | task :: rest, cl =>
    if timeoutCond now task then
      let task' := applyTimeout now task
      let r := sweepGo now rest (freeTaskClient task' cl)
      (task' :: r.1, r.2.1, task' :: r.2.2)
    else
      let r := sweepGo now rest cl
      (task :: r.1, r.2.1, r.2.2)

/-- `TaskManager.check_timeout_tasks()` at clock time `now`: returns the new
state and the list of timed-out tasks. -/
def check_timeout_tasks (now : Nat) (s : TMState) : TMState × List Task :=
  let r := sweepGo now s.tasks s.clients
  ({ s with tasks := r.1, clients := r.2.1 }, r.2.2)

/-- Effect of the sweep on one task. -/
def sweepOne (now : Nat) (task : Task) : Task :=
  if timeoutCond now task then applyTimeout now task else task

/-- Effect of the sweep on one freed worker record. -/
def clearCI (info : ClientInfo) : ClientInfo :=
  { info with busy := false, taskId := none }

/-- Whether the sweep over `ts` at time `now` frees the worker `k`. -/
def freedB (now : Nat) (ts : List Task) (k : ClientId) : Bool :=
  ts.any (fun t => timeoutCond now t && decide (t.client_id = some k))

/-! ### WireProtocolHandler: result branch -/

/-- The mutation of the `result`-with-error branch: first task with the given
id becomes `failed` with the error as detail and the end time stamped (the
source loop breaks after the first match). -/
def setTaskFailedFirst (tid : TaskId) (err : String) (now : Nat)
    (l : List Task) : List Task :=
  updFirst tid (fun task =>
    { task with status := Status.failed, status_detail := err,
                end_time := some now }) l

/-- The `result` branch of `WebSocketServer.handler`: if a non-empty error
string is present (`if error:` — empty strings are falsy), mark the named
task failed; in every case the sending client is marked idle. -/
def handle_result (cid : ClientId) (tid : TaskId) (error : Option String)
    (now : Nat) (s : TMState) : TMState :=
  let s1 :=
    match error with
    | none => s
    | some err =>
      if err = "" then s
      else { s with tasks := setTaskFailedFirst tid err now s.tasks }
  mark_client_idle cid now s1

/-- The `status` branch of the handler: look the job up through the sending
worker's currently assigned job id and attach the free-text message as its
status detail. -/
def handle_status (cid : ClientId) (msg : String) (s : TMState) : TMState :=
  match (dictGet cid s.clients).bind ClientInfo.taskId with
  | none => s
  | some tid => { s with tasks := update_task_status_detail tid msg s.tasks }

/-! ### Paths and persistence (`handle_image_result`) -/

/-- The global output directory (its OS-specific location is irrelevant to
the scheduling logic). -/
def OUTPUT_DIR : String := "output"

def joinPath (a b : String) : String := a ++ "/" ++ b

/-- `Path(p).is_absolute()` in the POSIX rendering. -/
def isAbsolute (p : String) : Bool :=
  match p.data with
  | '/' :: _ => true
  | _ => false

/-- Python truthiness of an optional string: `None` and `""` are falsy. -/
def strOpt (o : Option String) : Option String :=
  match o with
  | none => none
  | some v => if v = "" then none else some v

/-- The destination-directory computation shared by `handle_image_result`
and the import-skip check of `_execute_tasks`: the job's output dir resolved
against `OUTPUT_DIR` when relative, else `OUTPUT_DIR` itself. -/
def resolveOutputDir (od : Option String) : String :=
  match strOpt od with
  | none => OUTPUT_DIR
  | some d => if isAbsolute d then d else joinPath OUTPUT_DIR d

/-- The collision loop of `handle_image_result`: append `_counter` to the
timestamp name until the path does not exist.  The source loop terminates
because the filesystem is finite; here the recursion carries explicit fuel,
instantiated at call site with more candidates than existing files. -/
def collideGo (tsStr ext dir : String) (fs : List String) :
    Nat → Nat → String
  | counter, 0 => tsStr ++ "_" ++ toString counter ++ ext
  | counter, fuel + 1 =>
    let name := tsStr ++ "_" ++ toString counter ++ ext
    if fs.contains (joinPath dir name) then
      collideGo tsStr ext dir fs (counter + 1) fuel
    else name

/-- Timestamp-derived filename with numeric suffixes on collision, for tasks
without an import row number.  `fs` is the set of existing paths. -/
def timestampFilename (tsStr ext dir : String) (fs : List String) : String :=
  let name := tsStr ++ ext
  if fs.contains (joinPath dir name) then
    collideGo tsStr ext dir fs 1 (fs.length + 1)
  else name

/-- The per-task body of `handle_image_result`: resolve the directory, pick
the filename (row tag when truthy, else timestamped), then on save success
mark `completed` and record the paths, on failure mark `downloadFailed`; the
source breaks after the first id match.  `saveOk` is the outcome of the
external write (`ImageDownloader.save_base64_image`). -/
def completeOne (tsStr : String) (fs : List String) (saveOk : Bool)
    (now : Nat) (task : Task) : Task :=
  let dir := resolveOutputDir task.output_dir
  let filename :=
    match strOpt task.import_row_number with
    | some row => row ++ task.file_ext
    | none => timestampFilename tsStr task.file_ext dir fs
  if saveOk then
    { task with status := Status.completed, end_time := some now,
                saved_path := some (joinPath dir filename),
                output_dir_path := some dir }
  else
    { task with status := Status.downloadFailed, end_time := some now }

def completeTaskFirst (tsStr : String) (fs : List String) (saveOk : Bool)
    (now : Nat) (tid : TaskId) (l : List Task) : List Task :=
  updFirst tid (completeOne tsStr fs saveOk now) l

/-- `WebSocketServer.handle_image_result(client_id, task_id, base64_data)`:
persist the payload for the named task and unconditionally mark the sending
client idle afterwards. -/
def handle_image_result (cid : ClientId) (tid : TaskId) (tsStr : String)
    (fs : List String) (saveOk : Bool) (now : Nat) (s : TMState) : TMState :=
  mark_client_idle cid now
    { s with tasks := completeTaskFirst tsStr fs saveOk now tid s.tasks }

/-! ### Dispatch loop (`Api._execute_tasks`, one iteration past the sweep) -/

/-- `'文件已存在，跳过生成'`: the skip detail of the import-skip branch. -/
def skipDetail : String := "文件已存在，跳过生成"

/-- In-place mutation of the task at a list index (the source mutates the
dict object returned by `get_next_task`, which lives at the scan cursor). -/
def modifyAt (f : Task → Task) : Nat → List Task → List Task
  | _, [] => []
  | 0, task :: rest => f task :: rest
  | n + 1, task :: rest => task :: modifyAt f n rest

/-- The import-skip test of `_execute_tasks`: when the task carries a truthy
row tag, the target path (resolved directory joined with row tag and
extension) if it exists in the snapshot `fs`. -/
def skipHit (fs : List String) (task : Task) : Option String :=
  match strOpt task.import_row_number with
  | some row =>
    let fp := joinPath (resolveOutputDir task.output_dir)
      (row ++ task.file_ext)
    if fs.contains fp then some fp else none
  | none => none

/-- The mutation of the import-skip branch. -/
def skipUpd (now : Nat) (fp dir : String) (t : Task) : Task :=
  { t with status := Status.completed, end_time := some now,
           saved_path := some fp, output_dir_path := some dir,
           status_detail := skipDetail }

/-- `task['status'] = '处理中'; task['start_time'] = now`. -/
def procUpd (now : Nat) (t : Task) : Task :=
  { t with status := Status.processing, start_time := some now }

/-- `task['status'] = '等待中'` on send failure. -/
def pendUpd (t : Task) : Task := { t with status := Status.pending }

/-- The tail of one dispatch pass once a pending task (sitting at the scan
cursor of `s`) and an idle worker have been found: either short-circuit the
task to `completed` when its import target already exists, or mark the task
`processing`, stamp its start time, mark the worker busy, advance the
cursor and send — reverting the task to `pending` and marking the worker
idle when the send fails (`sendOk = false`). -/
def dispatchBody (now : Nat) (fs : List String) (sendOk : Bool)
    (task : Task) (cid : ClientId) (s : TMState) : TMState :=
  match skipHit fs task with
  | some fp =>
    let s1 := { s with
      tasks := modifyAt (skipUpd now fp (resolveOutputDir task.output_dir))
        s.current_index s.tasks }
    { s1 with current_index := s1.current_index + 1 }
  | none =>
    let s1 := { s with
      tasks := modifyAt (procUpd now) s.current_index s.tasks }
    let s2 := mark_client_busy cid task.id s1
    let s3 := { s2 with current_index := s2.current_index + 1 }
    if sendOk then s3
    else
      mark_client_idle cid now
        { s3 with tasks := modifyAt pendUpd s.current_index s3.tasks }

/-- One pass of the dispatch body of `Api._execute_tasks` after the timeout
sweep: scan for a pending task; if none, or no idle worker, stop (the loop
would sleep / terminate); otherwise run the dispatch tail on the found task
and the first idle worker. -/
def dispatchOnce (now : Nat) (fs : List String) (sendOk : Bool)
    (s0 : TMState) : TMState :=
  match get_next_task s0 with
  | (none, s1) => s1
  | (some task, s1) =>
    match get_idle_client now s1 with
    | none => s1
    | some pc => dispatchBody now fs sendOk task pc.1 s1

/-! ### Chunk reassembly (`image_chunk` branch of the handler) -/

/-- The per-job chunk buffer `chunk_buffer[task_id]`: an insertion-ordered
dict from chunk index to fragment. -/
abbrev ChunkBuf := List (Nat × String)

/-- `buffer[i] = d`. -/
def bufSet (i : Nat) (d : String) : ChunkBuf → ChunkBuf
  | [] => [(i, d)]
  | p :: r => if p.1 = i then (i, d) :: r else p :: bufSet i d r

/-- `buffer[i]` as a partial lookup. -/
def bufGet (i : Nat) : ChunkBuf → Option String
  | [] => none
  | p :: r => if p.1 = i then some p.2 else bufGet i r

/-- Look every index up, failing if any is missing. -/
def lookupAll (b : ChunkBuf) : List Nat → Option (List String)
  | [] => some []
  | i :: r =>
    match bufGet i b, lookupAll b r with
    | some s, some rest => some (s :: rest)
    | _, _ => none

/-- `''.join(buffer[i] for i in range(total))`: `none` models the `KeyError`
raised when a slot in `0..total-1` is missing. -/
def joinChunks (b : ChunkBuf) (total : Nat) : Option String :=
  (lookupAll b (List.range total)).map String.join

/-- One `image_chunk` message for a job: store the fragment at its index;
if the buffer then holds exactly `total` entries, join slots `0..total-1`
in index order and delete the buffer.  Result `none` models the uncaught
`KeyError` of the join (the source deletes the buffer only after a
successful join, and the handler's enclosing `try` tears the connection
down); `some (buf, none)` means still waiting; `some ([], some payload)`
means the payload was emitted and the entry deleted. -/
def ingest (buf : ChunkBuf) (chunk_index total_chunks : Nat) (data : String) :
    Option (ChunkBuf × Option String) :=
  let buf' := bufSet chunk_index data buf
  if buf'.length = total_chunks then
    match joinChunks buf' total_chunks with
    | none => none
    | some payload => some ([], some payload)
  else some (buf', none)

/-- The buffer states arising while a transfer with declared total `total`
is still incomplete: distinct slot indices, all in range, fewer than
`total` of them. -/
def BufInv (total : Nat) (b : ChunkBuf) : Prop :=
  (b.map Prod.fst).Nodup ∧ (∀ k ∈ b.map Prod.fst, k < total) ∧
    b.length < total

/-- Safety of a whole arrival sequence, starting from a given buffer: every
step avoids the `KeyError`, emits exactly when slots `0..total-1` are all
present after the store, and deletes the buffer entry when it emits. -/
def ChunkSafe (total : Nat) : List (Nat × String) → ChunkBuf → Prop
  | [], _ => True
  | (i, d) :: rest, buf =>
    match ingest buf i total d with
    | none => False
    | some r =>
      (r.2.isSome ↔ ∀ j < total, (bufGet j (bufSet i d buf)).isSome) ∧
      (r.2.isSome → r.1 = []) ∧
      ChunkSafe total rest r.1

/-! ### The event system: the operations that mutate the shared state -/

/-- The operations of the cooperative loop that mutate `TaskManager` state.
Oracle data (clock readings, filesystem snapshots, send/save outcomes,
message fields chosen by the remote worker) are carried by the event. -/
inductive Event where
  | register (url : String) (t : Nat)
  | unregister (cid : ClientId)
  | addTask (prompt task_type aspect resolution : String)
      (refs : List String) (odir : Option String) (row : Option String)
      (stamp : Nat)
  | sweep (now : Nat)
  | dispatch (now : Nat) (fs : List String) (sendOk : Bool)
  | result (cid : ClientId) (tid : TaskId) (error : Option String) (now : Nat)
  | imageResult (cid : ClientId) (tid : TaskId) (tsStr : String)
      (fs : List String) (saveOk : Bool) (now : Nat)
  | markIdle (cid : ClientId) (now : Nat)
  | statusMsg (cid : ClientId) (msg : String)

def step : Event → TMState → TMState
  | .register url t, s => (register_client url t s).1
  | .unregister cid, s => remove_client cid s
  | .addTask p tt a res refs od row st, s =>
    (add_task p tt a res refs od row st s).1
  | .sweep now, s => (check_timeout_tasks now s).1
  | .dispatch now fs ok, s => dispatchOnce now fs ok s
  | .result cid tid err now, s => handle_result cid tid err now s
  | .imageResult cid tid ts fs ok now, s =>
    handle_image_result cid tid ts fs ok now s
  | .markIdle cid now, s => mark_client_idle cid now s
  | .statusMsg cid msg, s => handle_status cid msg s

/-- The state of a freshly constructed `TaskManager`. -/
def initState : TMState :=
  { tasks := [], current_index := 0, clients := [], next_page_number := 1 }

/-- States reachable from a fresh `TaskManager` by any event sequence. -/
inductive Reachable : TMState → Prop
  | init : Reachable initState
  | step {s : TMState} (e : Event) : Reachable s → Reachable (step e s)

/-- A `result` or payload message is well-addressed when it names the job
currently assigned to the worker connection it arrives on; all other events
are unrestricted. -/
def GoodEvent (s : TMState) : Event → Prop
  | .result cid tid _ _ =>
    ∃ info, dictGet cid s.clients = some info ∧ info.taskId = some tid
  | .imageResult cid tid _ _ _ _ =>
    ∃ info, dictGet cid s.clients = some info ∧ info.taskId = some tid
  | _ => True

/-- Reachability along traces whose result/payload messages are all
well-addressed. -/
inductive GoodReachable : TMState → Prop
  | init : GoodReachable initState
  | step {s : TMState} (e : Event) :
      GoodReachable s → GoodEvent s e → GoodReachable (step e s)

/-! ### Invariants -/

/-- The id of the task at index `j` has index component `j` (ids are minted
from the insertion index, and tasks are never deleted or reordered), so job
ids are pairwise distinct. -/
def TaskIdsIndexed (s : TMState) : Prop :=
  ∀ j t, s.tasks.get? j = some t → t.id.idx = j

/-- Every `processing` task sits strictly below the scan cursor (the
dispatch loop advances the cursor right after marking a task processing,
and the cursor never decreases). -/
def ProcBelowCursor (s : TMState) : Prop :=
  ∀ j t, s.tasks.get? j = some t → t.status = Status.processing →
    j < s.current_index

/-- Every `processing` task has an assigned worker id. -/
def ProcHasClient (s : TMState) : Prop :=
  ∀ t ∈ s.tasks, t.status = Status.processing → t.client_id.isSome

def Inv0 (s : TMState) : Prop :=
  TaskIdsIndexed s ∧ ProcBelowCursor s ∧ ProcHasClient s

/-- How one event transforms the task list, position by position: each slot
is unchanged, or keeps its id and leaves `processing` (terminal statuses and
the pending reverts), or keeps id, status and worker alike (detail/stamp
updates), or is the freshly assigned task of this dispatch (processing, with
a worker recorded, below the new cursor `cur2`). -/
def TaskStepOk (cur2 : Nat) (old new : List Task) : Prop :=
  ∀ j t2, new.get? j = some t2 → ∃ t, old.get? j = some t ∧
    (t2 = t
     ∨ (t2.id = t.id ∧ ¬ t2.status = Status.processing)
     ∨ (t2.id = t.id ∧ t2.status = t.status ∧ t2.client_id = t.client_id)
     ∨ (t2.id = t.id ∧ t2.status = Status.processing ∧
        t2.client_id.isSome ∧ j < cur2))

/-- The worker-pool keys are pairwise distinct. -/
def ClientsNodup (s : TMState) : Prop :=
  (s.clients.map Prod.fst).Nodup

/-- The busy flag agrees with the presence of a current job id. -/
def BusyIffAssigned (s : TMState) : Prop :=
  ∀ k info, dictGet k s.clients = some info → info.busy = info.taskId.isSome

/-- A worker's current job id names a task that is `processing` and whose
assigned worker id points back at this worker. -/
def AssignedOk (s : TMState) : Prop :=
  ∀ k info tid, dictGet k s.clients = some info → info.taskId = some tid →
    ∃ j t, s.tasks.get? j = some t ∧ t.id = tid ∧
      t.status = Status.processing ∧ t.client_id = some k

def InvC (s : TMState) : Prop :=
  ClientsNodup s ∧ BusyIffAssigned s ∧ AssignedOk s

/-! ### Concrete states used by counterexamples and witnesses

All are built from `initState` by `step`, so they are reachable. -/

/-- Register one page, queue one job, dispatch it: worker `c0_10` is busy
with job `task_0_1`, which is `processing`; the cursor has advanced to 1. -/
def sDisp : TMState :=
  step (.dispatch 20 [] true)
    (step (.addTask "hello" "Create Image" "16:9" "4K" [] none none 1)
      (step (.register "p1" 10) initState))

/-- `sDisp` after the worker's connection is torn down. -/
def sDrop : TMState := step (.unregister (mkClientId 0 10)) sDisp

/-- The dispatched job of `sDisp`. -/
def tskDisp : Task :=
  { id := mkTaskId 0 1, prompt := "hello", status := Status.processing,
    status_detail := "", file_ext := ".png", output_dir := none,
    client_id := some (mkClientId 0 10), task_type := "Create Image",
    aspect := "16:9", resolution := "4K", reference_images := [],
    start_time := some 20, end_time := none, import_row_number := none,
    saved_path := none, output_dir_path := none }

/-- The busy worker record of `sDisp`. -/
def infoDisp : ClientInfo :=
  { url := "p1", busy := true, taskId := some (mkTaskId 0 1),
    page_number := 1, last_task_end := none }

/-- Two pages registered, one job dispatched to the first worker, then the
*second* worker sends a result naming the first worker's job. -/
def sCross : TMState :=
  step (.result (mkClientId 1 11) (mkTaskId 0 1) (some "boom") 30)
    (step (.dispatch 20 [] true)
      (step (.addTask "hello" "Create Image" "16:9" "4K" [] none none 1)
        (step (.register "p2" 11)
          (step (.register "p1" 10) initState))))

/-- `sDisp` after the worker delivers the payload and it is persisted. -/
def sDone : TMState :=
  step (.imageResult (mkClientId 0 10) (mkTaskId 0 1) "ts" [] true 30) sDisp

/-- A pool with a single registered page. -/
def sReg1 : TMState := step (.register "p1" 100) initState

/-- Two same-second registrations around a removal: after removing `c0_100`,
a third page registers at the same clock second. -/
def sCollide : TMState :=
  step (.unregister (mkClientId 0 100))
    (step (.register "p2" 100)
      (step (.register "p1" 100) initState))

/-- A worker busy with a processing job that started at time 0 and a stale
cooldown stamp `50`. -/
def tskT : Task :=
  { id := mkTaskId 0 1, prompt := "x", status := Status.processing,
    status_detail := "", file_ext := ".png", output_dir := none,
    client_id := some (mkClientId 0 5), task_type := "Create Image",
    aspect := "16:9", resolution := "4K", reference_images := [],
    start_time := some 0, end_time := none, import_row_number := none,
    saved_path := none, output_dir_path := none }

def sStale : TMState :=
  { tasks := [tskT], current_index := 1,
    clients := [(mkClientId 0 5,
      { url := "p", busy := true, taskId := some (mkTaskId 0 1),
        page_number := 1, last_task_end := some 50 })],
    next_page_number := 2 }

/-- One registered worker and one queued import job (row tag `7`, output
subdirectory `dir`) whose target file `output/dir/7.png` already exists. -/
def sImport : TMState :=
  step (.addTask "hello" "Create Image" "16:9" "4K" [] (some "dir")
      (some "7") 1)
    (step (.register "p1" 10) initState)

/-- The filesystem snapshot in which the import job's target exists. -/
def fsImport : List String := ["output/dir/7.png"]

/-- The queued import job of `sImport`, as `add_task` constructs it. -/
def taskImp : Task :=
  { id := mkTaskId 0 1, prompt := "hello", status := Status.pending,
    status_detail := "", file_ext := ".png", output_dir := some "dir",
    client_id := none, task_type := "Create Image", aspect := "16:9",
    resolution := "4K", reference_images := [], start_time := none,
    end_time := none, import_row_number := some "7", saved_path := none,
    output_dir_path := none }

/-- The fields of a worker record that freeing never touches. -/
def ciView (p : ClientId × ClientInfo) :
    ClientId × String × Nat × Option Nat :=
  (p.1, p.2.url, p.2.page_number, p.2.last_task_end)

/-! ## Lemmas about the dictionary operations -/

theorem dictGet_dictModify_self (k : ClientId) (f : ClientInfo → ClientInfo) :
    ∀ l : ClientDict, dictGet k (dictModify k f l) = (dictGet k l).map f := by
  intro l
  induction l with
  | nil => rfl
  | cons p r ih =>
    by_cases h : p.1 = k
    · simp [dictModify, dictGet, h]
    · simp [dictModify, dictGet, h, ih]

theorem dictGet_dictModify_other {k k' : ClientId} (hne : k' ≠ k)
    (f : ClientInfo → ClientInfo) :
    ∀ l : ClientDict, dictGet k' (dictModify k f l) = dictGet k' l := by
  intro l
  induction l with
  | nil => rfl
  | cons p r ih =>
    by_cases h : p.1 = k
    · have hpk : ¬ p.1 = k' := by
        rw [h]; exact fun he => hne he.symm
      simp [dictModify, dictGet, h, hpk, Ne.symm hne]
    · simp [dictModify, dictGet, h, ih]

theorem keys_dictModify (k : ClientId) (f : ClientInfo → ClientInfo) :
    ∀ l : ClientDict, (dictModify k f l).map Prod.fst = l.map Prod.fst := by
  intro l
  induction l with
  | nil => rfl
  | cons p r ih =>
    by_cases h : p.1 = k <;> simp [dictModify, h, ih]

theorem dictGet_dictSet_self (k : ClientId) (v : ClientInfo) :
    ∀ l : ClientDict, dictGet k (dictSet k v l) = some v := by
  intro l
  induction l with
  | nil => simp [dictSet, dictGet]
  | cons p r ih =>
    by_cases h : p.1 = k <;> simp [dictSet, dictGet, h, ih]

theorem dictGet_dictSet_other {k k' : ClientId} (hne : k' ≠ k)
    (v : ClientInfo) :
    ∀ l : ClientDict, dictGet k' (dictSet k v l) = dictGet k' l := by
  intro l
  induction l with
  | nil => simp [dictSet, dictGet, Ne.symm hne]
  | cons p r ih =>
    by_cases h : p.1 = k
    · have hpk : ¬ p.1 = k' := by
        rw [h]; exact fun he => hne he.symm
      simp [dictSet, dictGet, h, hpk, Ne.symm hne]
    · simp [dictSet, dictGet, h, ih]

theorem dictGet_eq_some_of_mem {l : ClientDict}
    (hnd : (l.map Prod.fst).Nodup) {p : ClientId × ClientInfo} (hp : p ∈ l) :
    dictGet p.1 l = some p.2 := by
  induction l with
  | nil => cases hp
  | cons q r ih =>
    simp only [List.map_cons, List.nodup_cons] at hnd
    rcases List.mem_cons.mp hp with rfl | hp
    · simp [dictGet]
    · have hne : ¬ q.1 = p.1 := by
        intro he
        exact hnd.1 (he ▸ List.mem_map_of_mem Prod.fst hp)
      simp [dictGet, hne, ih hnd.2 hp]

theorem dictGet_isSome_of_mem {l : ClientDict} {p : ClientId × ClientInfo}
    (hp : p ∈ l) : (dictGet p.1 l).isSome := by
  induction l with
  | nil => cases hp
  | cons q r ih =>
    by_cases hq : q.1 = p.1
    · simp [dictGet, hq]
    · rcases List.mem_cons.mp hp with rfl | hp'
      · exact absurd rfl hq
      · simp only [dictGet, if_neg hq]
        exact ih hp'

theorem mem_of_dictGet_eq_some {l : ClientDict} {k : ClientId}
    {v : ClientInfo} (h : dictGet k l = some v) : (k, v) ∈ l := by
  induction l with
  | nil => cases h
  | cons q r ih =>
    by_cases hq : q.1 = k
    · simp only [dictGet, if_pos hq] at h
      cases h
      subst hq
      exact List.mem_cons_self q r
    · simp only [dictGet, if_neg hq] at h
      exact List.mem_cons_of_mem q (ih h)

theorem dictSet_of_not_mem {k : ClientId} {l : ClientDict}
    (h : k ∉ l.map Prod.fst) (v : ClientInfo) :
    dictSet k v l = l ++ [(k, v)] := by
  induction l with
  | nil => rfl
  | cons p r ih =>
    simp only [List.map_cons, List.mem_cons] at h
    push_neg at h
    have hne : ¬ p.1 = k := fun he => h.1 he.symm
    simp [dictSet, hne, ih h.2]

theorem keys_dictSet (k : ClientId) (v : ClientInfo) :
    ∀ l : ClientDict, (dictSet k v l).map Prod.fst =
      if k ∈ l.map Prod.fst then l.map Prod.fst
      else l.map Prod.fst ++ [k] := by
  intro l
  induction l with
  | nil => simp [dictSet]
  | cons p r ih =>
    by_cases h : p.1 = k
    · subst h
      simp [dictSet]
    · have hne : ¬ k = p.1 := fun he => h he.symm
      by_cases hm : k ∈ r.map Prod.fst <;>
        simp [dictSet, h, ih, hm, hne]

theorem keys_dictSet_nodup {k : ClientId} {l : ClientDict}
    (h : (l.map Prod.fst).Nodup) (v : ClientInfo) :
    ((dictSet k v l).map Prod.fst).Nodup := by
  rw [keys_dictSet]
  by_cases hm : k ∈ l.map Prod.fst
  · simpa [hm] using h
  · simp only [hm, if_false]
    refine List.Nodup.append h (List.nodup_singleton k) ?_
    intro a ha hb
    rw [List.mem_singleton] at hb
    subst hb
    exact hm ha

theorem dictGet_dictDelete_self {l : ClientDict}
    (hnd : (l.map Prod.fst).Nodup) (k : ClientId) :
    dictGet k (dictDelete k l) = none := by
  induction l with
  | nil => rfl
  | cons p r ih =>
    simp only [List.map_cons, List.nodup_cons] at hnd
    by_cases h : p.1 = k
    · simp only [dictDelete, if_pos h]
      cases hget : dictGet k r with
      | none => rfl
      | some v =>
        exact absurd (h ▸ List.mem_map_of_mem Prod.fst
          (mem_of_dictGet_eq_some hget)) hnd.1
    · simp [dictDelete, dictGet, h, ih hnd.2]

theorem dictGet_dictDelete_other {k k' : ClientId} (hne : k' ≠ k) :
    ∀ l : ClientDict, dictGet k' (dictDelete k l) = dictGet k' l := by
  intro l
  induction l with
  | nil => rfl
  | cons p r ih =>
    by_cases h : p.1 = k
    · have hpk : ¬ p.1 = k' := by
        rw [h]; exact fun he => hne he.symm
      simp [dictDelete, dictGet, h, hpk, Ne.symm hne]
    · simp [dictDelete, dictGet, h, ih]

theorem keys_dictDelete_sublist (k : ClientId) :
    ∀ l : ClientDict, ((dictDelete k l).map Prod.fst).Sublist
      (l.map Prod.fst) := by
  intro l
  induction l with
  | nil => exact List.Sublist.refl _
  | cons p r ih =>
    by_cases h : p.1 = k
    · simp only [dictDelete, if_pos h, List.map_cons]
      exact List.sublist_cons_of_sublist p.1
        (List.Sublist.refl (r.map Prod.fst))
    · simpa [dictDelete, h] using List.Sublist.cons₂ p.1 ih

theorem keys_dictDelete_nodup {l : ClientDict}
    (hnd : (l.map Prod.fst).Nodup) (k : ClientId) :
    ((dictDelete k l).map Prod.fst).Nodup :=
  List.Nodup.sublist (keys_dictDelete_sublist k l) hnd

/-! ## Lemmas about the first-match task update -/

theorem updFirst_length (tid : TaskId) (g : Task → Task) :
    ∀ l : List Task, (updFirst tid g l).length = l.length := by
  intro l
  induction l with
  | nil => rfl
  | cons t r ih =>
    by_cases h : t.id = tid <;> simp [updFirst, h, ih]

/-- Each position of the result is the original entry, or a `g`-image of an
original entry whose id matched. -/
theorem updFirst_get? (tid : TaskId) (g : Task → Task) :
    ∀ (l : List Task) (j : Nat),
      (updFirst tid g l).get? j = l.get? j ∨
      ∃ t, l.get? j = some t ∧ t.id = tid ∧
        (updFirst tid g l).get? j = some (g t) := by
  intro l
  induction l with
  | nil => intro j; left; rfl
  | cons t r ih =>
    intro j
    by_cases h : t.id = tid
    · cases j with
      | zero => right; exact ⟨t, rfl, h, by simp [updFirst, h]⟩
      | succ n => left; simp [updFirst, h]
    · cases j with
      | zero => left; simp [updFirst, h]
      | succ n =>
        rcases ih n with h' | ⟨t', ht', hid, hg⟩
        · left; simpa [updFirst, h] using h'
        · right; exact ⟨t', ht', hid, by simpa [updFirst, h] using hg⟩

/-- When every index before `i` holds an id different from `tid` and index
`i` holds a matching task, the update lands exactly at index `i`. -/
theorem updFirst_get?_hit (tid : TaskId) (g : Task → Task) :
    ∀ (l : List Task) (i : Nat),
      (∀ j t', j < i → l.get? j = some t' → t'.id ≠ tid) →
      ∀ t, l.get? i = some t → t.id = tid →
      (updFirst tid g l).get? i = some (g t) := by
  intro l
  induction l with
  | nil => intro i _ t ht; cases ht
  | cons t0 r ih =>
    intro i hpre t ht hid
    cases i with
    | zero =>
      cases ht
      simp [updFirst, hid]
    | succ n =>
      have h0 : t0.id ≠ tid := hpre 0 t0 (Nat.succ_pos n) rfl
      have : (updFirst tid g r).get? n = some (g t) := by
        refine ih n ?_ t ht hid
        intro j t' hj ht'
        exact hpre (j + 1) t' (Nat.succ_lt_succ hj) ht'
      simpa [updFirst, h0]

theorem updFirst_of_no_match (tid : TaskId) (g : Task → Task) :
    ∀ l : List Task, (∀ t ∈ l, t.id ≠ tid) → updFirst tid g l = l := by
  intro l
  induction l with
  | nil => intro _; rfl
  | cons t r ih =>
    intro h
    have h0 : t.id ≠ tid := h t (List.mem_cons_self t r)
    simp [updFirst, h0, ih (fun t' ht' => h t' (List.mem_cons_of_mem t ht'))]

/-! ## Lemmas about `modifyAt` -/

theorem modifyAt_length (f : Task → Task) :
    ∀ (i : Nat) (l : List Task), (modifyAt f i l).length = l.length := by
  intro i l
  induction l generalizing i with
  | nil => cases i <;> rfl
  | cons t r ih =>
    cases i with
    | zero => rfl
    | succ n => simp [modifyAt, ih]

theorem modifyAt_get?_self (f : Task → Task) :
    ∀ (i : Nat) (l : List Task),
      (modifyAt f i l).get? i = (l.get? i).map f := by
  intro i l
  induction l generalizing i with
  | nil => cases i <;> rfl
  | cons t r ih =>
    cases i with
    | zero => rfl
    | succ n => simpa [modifyAt] using ih n

theorem modifyAt_get?_other (f : Task → Task) {i j : Nat} (hne : j ≠ i) :
    ∀ l : List Task, (modifyAt f i l).get? j = l.get? j := by
  intro l
  induction l generalizing i j with
  | nil => cases i <;> rfl
  | cons t r ih =>
    cases i with
    | zero =>
      cases j with
      | zero => exact absurd rfl hne
      | succ m => rfl
    | succ n =>
      cases j with
      | zero => rfl
      | succ m => simpa [modifyAt] using ih (fun h => hne (by omega))

/-! ## Lemmas about `get_next_task` -/

theorem get_next_task_go_spec (tasks : List Task) :
    ∀ (fuel i : Nat),
      (i ≤ (get_next_task_go tasks i fuel).2) ∧
      (∀ t, (get_next_task_go tasks i fuel).1 = some t →
        tasks.get? (get_next_task_go tasks i fuel).2 = some t ∧
        t.status = Status.pending) := by
  intro fuel
  induction fuel with
  | zero =>
    intro i
    exact ⟨Nat.le_refl i, by intro t ht; cases ht⟩
  | succ n ih =>
    intro i
    show (i ≤ (get_next_task_go tasks i (n + 1)).2) ∧ _
    rw [get_next_task_go]
    cases hg : tasks.get? i with
    | none => exact ⟨Nat.le_refl i, by intro t ht; cases ht⟩
    | some task =>
      by_cases hp : task.status = Status.pending
      · refine ⟨by simp [if_pos hp], ?_⟩
        intro t ht
        simp only [if_pos hp] at ht ⊢
        cases ht
        exact ⟨hg, hp⟩
      · have hrec := ih (i + 1)
        simp only [if_neg hp]
        exact ⟨Nat.le_trans (Nat.le_succ i) hrec.1, hrec.2⟩

theorem get_next_task_aux_spec (tasks : List Task) :
    ∀ i : Nat,
      (i ≤ (get_next_task_aux tasks i).2) ∧
      (∀ t, (get_next_task_aux tasks i).1 = some t →
        tasks.get? (get_next_task_aux tasks i).2 = some t ∧
        t.status = Status.pending) := by
  intro i
  exact get_next_task_go_spec tasks (tasks.length - i) i

theorem get_next_task_cursor_mono (s : TMState) :
    s.current_index ≤ (get_next_task s).2.current_index :=
  (get_next_task_aux_spec s.tasks s.current_index).1

theorem get_next_task_some {s : TMState} {t : Task} {s' : TMState}
    (h : get_next_task s = (some t, s')) :
    s'.tasks = s.tasks ∧ s'.clients = s.clients ∧
    s.current_index ≤ s'.current_index ∧
    s'.tasks.get? s'.current_index = some t ∧
    t.status = Status.pending ∧
    s'.next_page_number = s.next_page_number := by
  have hspec := get_next_task_aux_spec s.tasks s.current_index
  unfold get_next_task at h
  have h1 : (get_next_task_aux s.tasks s.current_index).1 = some t := by
    have := congrArg Prod.fst h
    simpa using this
  have h2 : s' = { s with
      current_index := (get_next_task_aux s.tasks s.current_index).2 } := by
    have := congrArg Prod.snd h
    simpa using this.symm
  subst h2
  rcases hspec.2 t h1 with ⟨hget, hpend⟩
  exact ⟨rfl, rfl, hspec.1, hget, hpend, rfl⟩

/-! ## Lemmas about the timeout sweep -/

theorem applyTimeout_client_id (now : Nat) (t : Task) :
    (applyTimeout now t).client_id = t.client_id := rfl

theorem clearCI_idem (i : ClientInfo) : clearCI (clearCI i) = clearCI i := rfl

theorem sweepGo_tasks (now : Nat) :
    ∀ (ts : List Task) (cl : ClientDict),
      (sweepGo now ts cl).1 = ts.map (sweepOne now) := by
  intro ts
  induction ts with
  | nil => intro cl; rfl
  | cons t r ih =>
    intro cl
    by_cases h : timeoutCond now t <;>
      simp [sweepGo, sweepOne, h, ih]

theorem sweepGo_outs (now : Nat) :
    ∀ (ts : List Task) (cl : ClientDict),
      (sweepGo now ts cl).2.2 =
        (ts.filter (timeoutCond now)).map (applyTimeout now) := by
  intro ts
  induction ts with
  | nil => intro cl; rfl
  | cons t r ih =>
    intro cl
    by_cases h : timeoutCond now t <;>
      simp [sweepGo, h, ih]

theorem freeTaskClient_get (t : Task) (cl : ClientDict) (k : ClientId) :
    dictGet k (freeTaskClient t cl) =
      (dictGet k cl).map
        (fun i => if t.client_id = some k then clearCI i else i) := by
  unfold freeTaskClient
  cases hc : t.client_id with
  | none =>
    simp only
    cases dictGet k cl <;> simp
  | some cid =>
    by_cases hk : cid = k
    · rw [hk, dictGet_dictModify_self]
      cases dictGet k cl <;> simp [clearCI]
    · rw [dictGet_dictModify_other (fun he => hk he.symm)]
      cases dictGet k cl <;> simp [hk]

theorem sweepGo_clients_get (now : Nat) :
    ∀ (ts : List Task) (cl : ClientDict) (k : ClientId),
      dictGet k (sweepGo now ts cl).2.1 =
        (dictGet k cl).map
          (fun i => if freedB now ts k then clearCI i else i) := by
  intro ts
  induction ts with
  | nil =>
    intro cl k
    simp only [sweepGo, freedB, List.any_nil]
    cases dictGet k cl <;> simp
  | cons t r ih =>
    intro cl k
    by_cases h : timeoutCond now t
    · simp only [sweepGo, if_pos h]
      rw [ih, freeTaskClient_get]
      have hfr : freedB now (t :: r) k =
          (decide (t.client_id = some k) || freedB now r k) := by
        simp [freedB, h]
      cases hdg : dictGet k cl with
      | none => simp
      | some v =>
        by_cases h1 : t.client_id = some k
        · simp only [applyTimeout_client_id, h1, hfr, decide_eq_true_eq]
          by_cases h2 : freedB now r k <;> simp [h1, h2, clearCI_idem]
        · simp [applyTimeout_client_id, h1, hfr]
    · simp only [sweepGo, if_neg h]
      rw [ih]
      have hfr : freedB now (t :: r) k = freedB now r k := by
        simp [freedB, h]
      rw [hfr]

theorem sweepGo_keys (now : Nat) :
    ∀ (ts : List Task) (cl : ClientDict),
      (sweepGo now ts cl).2.1.map Prod.fst = cl.map Prod.fst := by
  intro ts
  induction ts with
  | nil => intro cl; rfl
  | cons t r ih =>
    intro cl
    by_cases h : timeoutCond now t
    · simp only [sweepGo, if_pos h]
      rw [ih]
      unfold freeTaskClient
      cases (applyTimeout now t).client_id with
      | none => rfl
      | some cid => exact keys_dictModify cid _ cl
    · simp only [sweepGo, if_neg h]
      exact ih cl

theorem freeTaskClient_ciView (t : Task) :
    ∀ cl : ClientDict, (freeTaskClient t cl).map ciView = cl.map ciView := by
  intro cl
  unfold freeTaskClient
  cases t.client_id with
  | none => rfl
  | some cid =>
    simp only
    induction cl with
    | nil => rfl
    | cons p r ih =>
      by_cases hp : p.1 = cid <;> simp [dictModify, hp, ciView, ih]

/-- The sweep never touches a worker's `last_task_end` stamp (nor its url or
page number): it frees workers without starting a cooldown window. -/
theorem sweepGo_clients_ciView (now : Nat) :
    ∀ (ts : List Task) (cl : ClientDict),
      (sweepGo now ts cl).2.1.map ciView = cl.map ciView := by
  intro ts
  induction ts with
  | nil => intro cl; rfl
  | cons t r ih =>
    intro cl
    by_cases h : timeoutCond now t
    · simp only [sweepGo, if_pos h]
      rw [ih, freeTaskClient_ciView]
    · simp only [sweepGo, if_neg h]
      exact ih cl

theorem get_next_task_none {s : TMState} {s' : TMState}
    (h : get_next_task s = (none, s')) :
    s'.tasks = s.tasks ∧ s'.clients = s.clients ∧
    s.current_index ≤ s'.current_index ∧
    s'.next_page_number = s.next_page_number := by
  have hspec := get_next_task_aux_spec s.tasks s.current_index
  unfold get_next_task at h
  have h2 : s' = { s with
      current_index := (get_next_task_aux s.tasks s.current_index).2 } := by
    have := congrArg Prod.snd h
    simpa using this.symm
  subst h2
  exact ⟨rfl, rfl, hspec.1, rfl⟩

/-! ## Lemmas about the dispatch pass -/

theorem dispatchOnce_none {s s1 : TMState} {now : Nat} {fs : List String}
    {ok : Bool} (h : get_next_task s = (none, s1)) :
    dispatchOnce now fs ok s = s1 := by
  unfold dispatchOnce
  split
  · next s1' heq =>
    rw [h] at heq
    cases heq
    rfl
  · next task s1' heq =>
    rw [h] at heq
    cases heq

theorem dispatchOnce_noIdle {s s1 : TMState} {task : Task} {now : Nat}
    {fs : List String} {ok : Bool}
    (h : get_next_task s = (some task, s1))
    (hi : get_idle_client now s1 = none) :
    dispatchOnce now fs ok s = s1 := by
  unfold dispatchOnce
  split
  · next s1' heq =>
    rw [h] at heq
    cases heq
  · next task' s1' heq =>
    rw [h] at heq
    cases heq
    rw [hi]

theorem dispatchOnce_found {s s1 : TMState} {task : Task}
    {pc : ClientId × ClientInfo} {now : Nat} {fs : List String} {ok : Bool}
    (h : get_next_task s = (some task, s1))
    (hi : get_idle_client now s1 = some pc) :
    dispatchOnce now fs ok s = dispatchBody now fs ok task pc.1 s1 := by
  unfold dispatchOnce
  split
  · next s1' heq =>
    rw [h] at heq
    cases heq
  · next task' s1' heq =>
    rw [h] at heq
    cases heq
    rw [hi]

theorem dispatchBody_skip {fs : List String} {task : Task} {fp : String}
    {now : Nat} {ok : Bool} {cid : ClientId} {s : TMState}
    (h : skipHit fs task = some fp) :
    dispatchBody now fs ok task cid s
      = { s with
          tasks := modifyAt
            (skipUpd now fp (resolveOutputDir task.output_dir))
            s.current_index s.tasks,
          current_index := s.current_index + 1 } := by
  unfold dispatchBody
  rw [h]

theorem dispatchBody_assign {fs : List String} {task : Task}
    {now : Nat} {ok : Bool} {cid : ClientId} {s : TMState}
    (h : skipHit fs task = none) :
    dispatchBody now fs ok task cid s
      = (let s2 := mark_client_busy cid task.id
           { s with tasks := modifyAt (procUpd now) s.current_index s.tasks }
         let s3 := { s2 with current_index := s2.current_index + 1 }
         if ok then s3
         else mark_client_idle cid now
           { s3 with
             tasks := modifyAt pendUpd s.current_index s3.tasks }) := by
  unfold dispatchBody
  rw [h]

theorem mark_client_busy_eq {cid : ClientId} {tid : TaskId} {s : TMState}
    (hc : (dictGet cid s.clients).isSome) :
    mark_client_busy cid tid s
      = { s with
          clients := dictModify cid
            (fun info => { info with busy := true, taskId := some tid })
            s.clients,
          tasks := setTaskClientFirst tid cid s.tasks } := by
  unfold mark_client_busy
  rw [if_pos hc]

theorem updFirst_get?_map {α : Type} (proj : Task → α) (tid : TaskId)
    (g : Task → Task) (hg : ∀ t, proj (g t) = proj t) :
    ∀ (l : List Task) (j : Nat),
      ((updFirst tid g l).get? j).map proj = (l.get? j).map proj := by
  intro l j
  rcases updFirst_get? tid g l j with h | ⟨t, ht, _, hgj⟩
  · rw [h]
  · rw [hgj, ht]
    simp [hg t]

theorem mark_client_busy_tasks_proj {α : Type} (proj : Task → α)
    (hp : ∀ t c, proj { t with client_id := some c } = proj t)
    (cid : ClientId) (tid : TaskId) (s : TMState) (j : Nat) :
    ((mark_client_busy cid tid s).tasks.get? j).map proj
      = (s.tasks.get? j).map proj := by
  unfold mark_client_busy
  by_cases hc : (dictGet cid s.clients).isSome
  · rw [if_pos hc]
    exact updFirst_get?_map proj tid _ (fun t => hp t cid) s.tasks j
  · rw [if_neg hc]

/-- A dispatch pass never changes the status or status detail of any task
sitting strictly below the scan cursor: the scan only ever returns (and the
pass only ever mutates) tasks at or above the cursor, and the busy-marking
walk only touches the assigned worker id. -/
theorem dispatchOnce_preserves_below (now : Nat) (fs : List String)
    (ok : Bool) (s : TMState) (j : Nat) (hj : j < s.current_index) :
    ((dispatchOnce now fs ok s).tasks.get? j).map
        (fun t => (t.status, t.status_detail))
      = (s.tasks.get? j).map (fun t => (t.status, t.status_detail)) := by
  cases hg : get_next_task s with
  | mk ot s1 =>
    cases ot with
    | none =>
      obtain ⟨ht, _, _, _⟩ := get_next_task_none hg
      rw [dispatchOnce_none hg, ht]
    | some task =>
      obtain ⟨ht, hcl, hle, hget, hpend, _⟩ := get_next_task_some hg
      cases hpc : get_idle_client now s1 with
      | none => rw [dispatchOnce_noIdle hg hpc, ht]
      | some pc =>
        rw [dispatchOnce_found hg hpc]
        have hj1 : j ≠ s1.current_index := by omega
        cases hsk : skipHit fs task with
        | some fp =>
          rw [dispatchBody_skip hsk]
          simp only
          rw [modifyAt_get?_other _ hj1, ht]
        | none =>
          rw [dispatchBody_assign hsk]
          simp only
          by_cases hok : ok
          · rw [if_pos hok]
            simp only
            rw [mark_client_busy_tasks_proj (fun t => (t.status, t.status_detail)) (fun t c => rfl)]
            simp only
            rw [modifyAt_get?_other _ hj1, ht]
          · rw [if_neg hok]
            show ((mark_client_idle _ _ _).tasks.get? j).map _ = _
            unfold mark_client_idle
            simp only
            rw [modifyAt_get?_other _ hj1]
            rw [mark_client_busy_tasks_proj (fun t => (t.status, t.status_detail)) (fun t c => rfl)]
            simp only
            rw [modifyAt_get?_other _ hj1, ht]

/-! ## Lemmas about the chunk buffer -/

theorem bufGet_isSome_iff (i : Nat) :
    ∀ b : ChunkBuf, (bufGet i b).isSome ↔ i ∈ b.map Prod.fst := by
  intro b
  induction b with
  | nil => simp [bufGet]
  | cons p r ih =>
    by_cases h : p.1 = i
    · simp [bufGet, h]
    · have : ¬ i = p.1 := fun he => h he.symm
      simp [bufGet, h, this, ih]

theorem keys_bufSet (i : Nat) (d : String) :
    ∀ b : ChunkBuf, (bufSet i d b).map Prod.fst =
      if i ∈ b.map Prod.fst then b.map Prod.fst
      else b.map Prod.fst ++ [i] := by
  intro b
  induction b with
  | nil => simp [bufSet]
  | cons p r ih =>
    by_cases h : p.1 = i
    · simp [bufSet, h]
    · have hne : ¬ i = p.1 := fun he => h he.symm
      by_cases hm : i ∈ r.map Prod.fst <;>
        simp [bufSet, h, ih, hm, hne]

theorem keys_bufSet_nodup {i : Nat} {b : ChunkBuf}
    (h : (b.map Prod.fst).Nodup) (d : String) :
    ((bufSet i d b).map Prod.fst).Nodup := by
  rw [keys_bufSet]
  by_cases hm : i ∈ b.map Prod.fst
  · simpa [hm] using h
  · simp only [hm, if_false]
    refine List.Nodup.append h (List.nodup_singleton i) ?_
    intro a ha hb
    rw [List.mem_singleton] at hb
    subst hb
    exact hm ha

theorem lookupAll_isSome (b : ChunkBuf) :
    ∀ l : List Nat, (lookupAll b l).isSome ↔ ∀ x ∈ l, (bufGet x b).isSome := by
  intro l
  induction l with
  | nil => simp [lookupAll]
  | cons x r ih =>
    simp only [lookupAll, List.mem_cons]
    cases hx : bufGet x b with
    | none =>
      simp only [Option.isSome_none]
      constructor
      · intro h; cases h
      · intro h
        have := h x (Or.inl rfl)
        rw [hx] at this
        cases this
    | some s =>
      cases hr : lookupAll b r with
      | none =>
        simp only [Option.isSome_none]
        constructor
        · intro h; cases h
        · intro h
          have : (lookupAll b r).isSome := ih.mpr fun y hy => h y (Or.inr hy)
          rw [hr] at this
          cases this
      | some rest =>
        simp only [Option.isSome_some, true_iff]
        intro y hy
        rcases hy with rfl | hy
        · rw [hx]; rfl
        · exact ih.mp (by rw [hr]; rfl) y hy

theorem nodup_bounded_length_le {K : List Nat} {total : Nat}
    (hnd : K.Nodup) (hlt : ∀ k ∈ K, k < total) : K.length ≤ total := by
  have hsub : K.toFinset ⊆ Finset.range total := by
    intro x hx
    exact Finset.mem_range.mpr (hlt x (List.mem_toFinset.mp hx))
  have := Finset.card_le_card hsub
  rwa [List.toFinset_card_of_nodup hnd, Finset.card_range] at this

theorem buf_complete_iff {total : Nat} {b : ChunkBuf}
    (hnd : (b.map Prod.fst).Nodup) (hlt : ∀ k ∈ b.map Prod.fst, k < total) :
    b.length = total ↔ ∀ j < total, j ∈ b.map Prod.fst := by
  have hlen : b.length = (b.map Prod.fst).length := (List.length_map _ _).symm
  constructor
  · intro h j hj
    have hsub : (b.map Prod.fst).toFinset ⊆ Finset.range total := by
      intro x hx
      exact Finset.mem_range.mpr (hlt x (List.mem_toFinset.mp hx))
    have hcard : (b.map Prod.fst).toFinset.card = total := by
      rw [List.toFinset_card_of_nodup hnd, ← hlen, h]
    have : (b.map Prod.fst).toFinset = Finset.range total :=
      Finset.eq_of_subset_of_card_le hsub (by rw [hcard, Finset.card_range])
    exact List.mem_toFinset.mp (this ▸ Finset.mem_range.mpr hj)
  · intro h
    have h1 : (b.map Prod.fst).length ≤ total :=
      nodup_bounded_length_le hnd hlt
    have hsub : Finset.range total ⊆ (b.map Prod.fst).toFinset := by
      intro x hx
      exact List.mem_toFinset.mpr (h x (Finset.mem_range.mp hx))
    have h2 : total ≤ (b.map Prod.fst).length := by
      have := Finset.card_le_card hsub
      rwa [List.toFinset_card_of_nodup hnd, Finset.card_range] at this
    omega

theorem bufSet_length_le (i : Nat) (d : String) :
    ∀ b : ChunkBuf, (bufSet i d b).length ≤ b.length + 1 := by
  intro b
  induction b with
  | nil => simp [bufSet]
  | cons p r ih =>
    by_cases h : p.1 = i
    · simp [bufSet, h]
    · simp only [bufSet, if_neg h, List.length_cons]
      omega

/-- One in-range chunk arrival on an in-flight buffer never raises: it
emits iff the store just completed coverage of `0..total-1`, resets the
buffer exactly when it emits, and otherwise re-establishes the buffer
invariant. -/
theorem ingest_step {total : Nat} {b : ChunkBuf} {i : Nat} (d : String)
    (hinv : BufInv total b) (hi : i < total) :
    ∃ buf2 em, ingest b i total d = some (buf2, em) ∧
      (em.isSome ↔ ∀ j < total, (bufGet j (bufSet i d b)).isSome) ∧
      (em.isSome → buf2 = []) ∧ BufInv total buf2 := by
  obtain ⟨hnd, hlt, hlen⟩ := hinv
  have htot : 0 < total := Nat.lt_of_le_of_lt (Nat.zero_le i) hi
  have hnd' : ((bufSet i d b).map Prod.fst).Nodup := keys_bufSet_nodup hnd d
  have hlt' : ∀ k ∈ (bufSet i d b).map Prod.fst, k < total := by
    intro k hk
    rw [keys_bufSet] at hk
    by_cases hm : i ∈ b.map Prod.fst
    · exact hlt k (by simpa [hm] using hk)
    · simp only [hm, if_false, List.mem_append, List.mem_singleton] at hk
      rcases hk with hk | rfl
      · exact hlt k hk
      · exact hi
  have hcov := buf_complete_iff (b := bufSet i d b) hnd' hlt'
  have hlenk : (bufSet i d b).length = ((bufSet i d b).map Prod.fst).length :=
    (List.length_map _ _).symm
  by_cases hfull : (bufSet i d b).length = total
  · have hall : ∀ j < total, j ∈ (bufSet i d b).map Prod.fst := hcov.mp hfull
    have hsome : (lookupAll (bufSet i d b) (List.range total)).isSome := by
      rw [lookupAll_isSome]
      intro x hx
      exact (bufGet_isSome_iff x (bufSet i d b)).mpr
        (hall x (List.mem_range.mp hx))
    cases hla : lookupAll (bufSet i d b) (List.range total) with
    | none => rw [hla] at hsome; cases hsome
    | some parts =>
      refine ⟨[], some (String.join parts), ?_, ?_, ?_, ?_⟩
      · simp [ingest, hfull, joinChunks, hla]
      · simp only [Option.isSome_some, true_iff]
        intro j hj
        exact (bufGet_isSome_iff j (bufSet i d b)).mpr (hall j hj)
      · intro _; rfl
      · exact ⟨List.nodup_nil, by simp, by simpa using htot⟩
  · refine ⟨bufSet i d b, none, ?_, ?_, ?_, ?_⟩
    · simp [ingest, hfull]
    · constructor
      · intro h
        exact absurd h (by simp)
      · intro hall
        exact (hfull (hcov.mpr fun j hj =>
          (bufGet_isSome_iff j (bufSet i d b)).mp (hall j hj))).elim
    · intro h
      exact absurd h (by simp)
    · refine ⟨hnd', hlt', ?_⟩
      have := nodup_bounded_length_le hnd' hlt'
      omega

theorem chunkSafe_of_inv {total : Nat} :
    ∀ (msgs : List (Nat × String)) (b : ChunkBuf), BufInv total b →
      (∀ m ∈ msgs, m.1 < total) → ChunkSafe total msgs b := by
  intro msgs
  induction msgs with
  | nil => intro b _ _; trivial
  | cons m rest ih =>
    intro b hinv hidx
    obtain ⟨buf2, em, hing, hiff, hdel, hinv2⟩ :=
      ingest_step (b := b) (i := m.1) m.2 hinv
        (hidx m (List.mem_cons_self m rest))
    show ChunkSafe total ((m.1, m.2) :: rest) b
    unfold ChunkSafe
    rw [hing]
    exact ⟨hiff, hdel, ih buf2 hinv2
      (fun m' hm' => hidx m' (List.mem_cons_of_mem m hm'))⟩

/-- Every worker freed by the sweep comes out with `busy = false` and no
current job id. -/
theorem sweep_frees (s : TMState) (now : Nat) :
    ∀ t ∈ (check_timeout_tasks now s).2, ∀ cid, t.client_id = some cid →
      ∀ info, dictGet cid (check_timeout_tasks now s).1.clients = some info →
        info.busy = false ∧ info.taskId = none := by
  intro t ht cid hcid info hinfo
  have houts : (check_timeout_tasks now s).2
      = (s.tasks.filter (timeoutCond now)).map (applyTimeout now) :=
    sweepGo_outs now s.tasks s.clients
  rw [houts] at ht
  rcases List.mem_map.mp ht with ⟨t0, ht0, rfl⟩
  rcases List.mem_filter.mp ht0 with ⟨ht0m, ht0c⟩
  have hfree : freedB now s.tasks cid = true := by
    rw [freedB, List.any_eq_true]
    refine ⟨t0, ht0m, ?_⟩
    rw [Bool.and_eq_true, decide_eq_true_eq]
    exact ⟨ht0c, hcid⟩
  have hget : dictGet cid (check_timeout_tasks now s).1.clients
      = (dictGet cid s.clients).map
          (fun i => if freedB now s.tasks cid then clearCI i else i) :=
    sweepGo_clients_get now s.tasks s.clients cid
  rw [hget, hfree] at hinfo
  cases hdg : dictGet cid s.clients with
  | none => rw [hdg] at hinfo; cases hinfo
  | some v =>
    rw [hdg] at hinfo
    simp only [Option.map_some, if_true] at hinfo
    cases hinfo
    exact ⟨rfl, rfl⟩

/-! ## The basic reachability invariant -/

theorem taskStepOk_refl (c : Nat) (l : List Task) : TaskStepOk c l l :=
  fun _ t2 h => ⟨t2, h, Or.inl rfl⟩

theorem inv0_of_taskStepOk {s s2 : TMState} (h0 : Inv0 s)
    (hcur : s.current_index ≤ s2.current_index)
    (hstep : TaskStepOk s2.current_index s.tasks s2.tasks) : Inv0 s2 := by
  obtain ⟨hids, hbelow, hclient⟩ := h0
  refine ⟨?_, ?_, ?_⟩
  · intro j t2 h2
    obtain ⟨t, ht, hc⟩ := hstep j t2 h2
    rcases hc with rfl | ⟨hid, _⟩ | ⟨hid, _, _⟩ | ⟨hid, _, _, _⟩
    · exact hids j t2 ht
    all_goals rw [hid]; exact hids j t ht
  · intro j t2 h2 hproc
    obtain ⟨t, ht, hc⟩ := hstep j t2 h2
    rcases hc with rfl | ⟨_, hnp⟩ | ⟨_, hst, _⟩ | ⟨_, _, _, hlt⟩
    · exact Nat.lt_of_lt_of_le (hbelow j t2 ht hproc) hcur
    · exact absurd hproc hnp
    · exact Nat.lt_of_lt_of_le (hbelow j t ht (hst ▸ hproc)) hcur
    · exact hlt
  · intro t2 hmem hproc
    obtain ⟨j, h2⟩ := List.mem_iff_get?.mp hmem
    obtain ⟨t, ht, hc⟩ := hstep j t2 h2
    have htm : t ∈ s.tasks := List.mem_iff_get?.mpr ⟨j, ht⟩
    rcases hc with rfl | ⟨_, hnp⟩ | ⟨_, hst, hcl⟩ | ⟨_, _, hsome, _⟩
    · exact hclient t2 htm hproc
    · exact absurd hproc hnp
    · rw [hcl]
      exact hclient t htm (hst ▸ hproc)
    · exact hsome

theorem taskStepOk_map {c : Nat} {f : Task → Task}
    (hf : ∀ t, f t = t ∨ ((f t).id = t.id ∧
      ¬ (f t).status = Status.processing)) (l : List Task) :
    TaskStepOk c l (l.map f) := by
  intro j t2 h2
  rw [List.get?_map] at h2
  cases ht : l.get? j with
  | none => rw [ht] at h2; cases h2
  | some t =>
    rw [ht] at h2
    have h2' : f t = t2 := Option.some.inj h2
    subst h2'
    rcases hf t with he | ⟨hid, hnp⟩
    · exact ⟨t, rfl, Or.inl he⟩
    · exact ⟨t, rfl, Or.inr (Or.inl ⟨hid, hnp⟩)⟩

theorem taskStepOk_updFirst_terminal {c : Nat} (tid : TaskId)
    (g : Task → Task) (hgid : ∀ t, (g t).id = t.id)
    (hgnp : ∀ t, ¬ (g t).status = Status.processing) (l : List Task) :
    TaskStepOk c l (updFirst tid g l) := by
  intro j t2 h2
  rcases updFirst_get? tid g l j with he | ⟨t, ht, _, hg⟩
  · exact ⟨t2, he ▸ h2, Or.inl rfl⟩
  · rw [h2] at hg
    cases hg
    exact ⟨t, ht, Or.inr (Or.inl ⟨hgid t, hgnp t⟩)⟩

theorem taskStepOk_updFirst_detail {c : Nat} (tid : TaskId)
    (g : Task → Task) (hgid : ∀ t, (g t).id = t.id)
    (hgst : ∀ t, (g t).status = t.status)
    (hgcl : ∀ t, (g t).client_id = t.client_id) (l : List Task) :
    TaskStepOk c l (updFirst tid g l) := by
  intro j t2 h2
  rcases updFirst_get? tid g l j with he | ⟨t, ht, _, hg⟩
  · exact ⟨t2, he ▸ h2, Or.inl rfl⟩
  · rw [h2] at hg
    cases hg
    exact ⟨t, ht, Or.inr (Or.inr (Or.inl ⟨hgid t, hgst t, hgcl t⟩))⟩

theorem inv0_init : Inv0 initState := by
  refine ⟨?_, ?_, ?_⟩
  · intro j t h
    cases j <;> cases h
  · intro j t h
    cases j <;> cases h
  · intro t h
    cases h

theorem inv0_step (e : Event) (s : TMState) (h0 : Inv0 s) :
    Inv0 (step e s) := by
  cases e with
  | register url t =>
    exact inv0_of_taskStepOk h0 (Nat.le_refl _) (taskStepOk_refl _ _)
  | markIdle cid now =>
    exact inv0_of_taskStepOk h0 (Nat.le_refl _) (taskStepOk_refl _ _)
  | statusMsg cid msg =>
    show Inv0 (handle_status cid msg s)
    unfold handle_status
    cases hb : (dictGet cid s.clients).bind ClientInfo.taskId with
    | none => exact h0
    | some tid =>
      show Inv0 { s with tasks := update_task_status_detail tid msg s.tasks }
      exact inv0_of_taskStepOk h0 (Nat.le_refl _)
        (taskStepOk_updFirst_detail tid
          (fun task => { task with status_detail := msg })
          (fun t => rfl) (fun t => rfl) (fun t => rfl) s.tasks)
  | unregister cid =>
    show Inv0 (remove_client cid s)
    unfold remove_client
    cases hdg : dictGet cid s.clients with
    | none => exact h0
    | some info =>
      show Inv0 { s with tasks := revertTasks info.taskId s.tasks,
                         clients := dictDelete cid s.clients }
      cases hti : info.taskId with
      | none =>
        exact inv0_of_taskStepOk h0 (Nat.le_refl _) (taskStepOk_refl _ _)
      | some tid =>
        refine inv0_of_taskStepOk h0 (Nat.le_refl _) ?_
        show TaskStepOk s.current_index s.tasks (s.tasks.map _)
        refine taskStepOk_map ?_ s.tasks
        intro t
        by_cases hcond : t.id = tid ∧ t.status = Status.processing
        · right
          rw [if_pos hcond]
          exact ⟨rfl, by intro h; cases h⟩
        · left
          rw [if_neg hcond]
  | sweep now =>
    show Inv0 (check_timeout_tasks now s).1
    have htasks : (check_timeout_tasks now s).1.tasks
        = s.tasks.map (sweepOne now) := sweepGo_tasks now s.tasks s.clients
    refine inv0_of_taskStepOk h0 (Nat.le_refl _) ?_
    rw [show (check_timeout_tasks now s).1.current_index = s.current_index
      from rfl, htasks]
    refine taskStepOk_map ?_ s.tasks
    intro t
    by_cases hc : timeoutCond now t
    · right
      unfold sweepOne
      rw [if_pos hc]
      exact ⟨rfl, by intro h; cases h⟩
    · left
      unfold sweepOne
      rw [if_neg hc]
  | result cid tid error now =>
    show Inv0 (handle_result cid tid error now s)
    unfold handle_result
    cases error with
    | none => exact inv0_of_taskStepOk h0 (Nat.le_refl _) (taskStepOk_refl _ _)
    | some err =>
      show Inv0 (mark_client_idle cid now
        (if err = "" then s
         else { s with tasks := setTaskFailedFirst tid err now s.tasks }))
      by_cases he : err = ""
      · rw [if_pos he]
        exact inv0_of_taskStepOk h0 (Nat.le_refl _) (taskStepOk_refl _ _)
      · rw [if_neg he]
        exact inv0_of_taskStepOk h0 (Nat.le_refl _)
          (taskStepOk_updFirst_terminal tid
            (fun task =>
              { task with status := Status.failed, status_detail := err, end_time := some now })
            (fun t => rfl) (fun t => by intro h; cases h) s.tasks)
  | imageResult cid tid tsStr fs saveOk now =>
    show Inv0 (handle_image_result cid tid tsStr fs saveOk now s)
    unfold handle_image_result
    refine inv0_of_taskStepOk h0 (Nat.le_refl _) ?_
    show TaskStepOk s.current_index s.tasks
      (completeTaskFirst tsStr fs saveOk now tid s.tasks)
    refine taskStepOk_updFirst_terminal tid (completeOne tsStr fs saveOk now)
      (fun t => ?_) (fun t => ?_) s.tasks
    · unfold completeOne
      by_cases hs : saveOk = true
      · rw [hs]; rfl
      · rw [Bool.not_eq_true] at hs
        rw [hs]; rfl
    · unfold completeOne
      by_cases hs : saveOk = true
      · rw [hs]
        intro h; cases h
      · rw [Bool.not_eq_true] at hs
        rw [hs]
        intro h; cases h
  | addTask prompt tt a res refs od row st =>
    show Inv0 (add_task prompt tt a res refs od row st s).1
    unfold add_task
    by_cases hp : strTrim prompt = ""
    · rw [if_pos hp]
      exact h0
    · rw [if_neg hp]
      obtain ⟨hids, hbelow, hclient⟩ := h0
      refine ⟨?_, ?_, ?_⟩
      · intro j t2 h2
        by_cases hj : j < s.tasks.length
        · rw [List.get?_append hj] at h2
          exact hids j t2 h2
        · have hj' : j = s.tasks.length := by
            have hlt := (List.get?_eq_some.mp h2).1
            simp only [List.length_append, List.length_cons,
              List.length_nil] at hlt
            omega
          subst hj'
          rw [List.get?_concat_length] at h2
          cases h2
          rfl
      · intro j t2 h2 hproc
        by_cases hj : j < s.tasks.length
        · rw [List.get?_append hj] at h2
          exact hbelow j t2 h2 hproc
        · have hj' : j = s.tasks.length := by
            have hlt := (List.get?_eq_some.mp h2).1
            simp only [List.length_append, List.length_cons,
              List.length_nil] at hlt
            omega
          subst hj'
          rw [List.get?_concat_length] at h2
          cases h2
          cases hproc
      · intro t2 hmem hproc
        rcases List.mem_append.mp hmem with hm | hm
        · exact hclient t2 hm hproc
        · rw [List.mem_singleton] at hm
          subst hm
          cases hproc
  | dispatch now fs sendOk =>
    show Inv0 (dispatchOnce now fs sendOk s)
    cases hg : get_next_task s with
    | mk ot s1 =>
      cases ot with
      | none =>
        obtain ⟨ht, _, hle, _⟩ := get_next_task_none hg
        rw [dispatchOnce_none hg]
        exact inv0_of_taskStepOk h0 hle (ht ▸ taskStepOk_refl _ _)
      | some task =>
        obtain ⟨ht, hcl, hle, hget, hpend, _⟩ := get_next_task_some hg
        cases hpc : get_idle_client now s1 with
        | none =>
          rw [dispatchOnce_noIdle hg hpc]
          exact inv0_of_taskStepOk h0 hle (ht ▸ taskStepOk_refl _ _)
        | some pc =>
          rw [dispatchOnce_found hg hpc]
          have hidx : task.id.idx = s1.current_index :=
            h0.1 s1.current_index task (ht ▸ hget)
          cases hsk : skipHit fs task with
          | some fp =>
            rw [dispatchBody_skip hsk]
            refine inv0_of_taskStepOk h0 (by simp only; omega) ?_
            intro j t2 h2
            simp only at h2 ⊢
            by_cases hj : j = s1.current_index
            · subst hj
              rw [modifyAt_get?_self, hget] at h2
              have h2' : skipUpd now fp (resolveOutputDir task.output_dir)
                  task = t2 := Option.some.inj h2
              subst h2'
              refine ⟨task, ht ▸ hget, Or.inr (Or.inl ⟨rfl, ?_⟩)⟩
              intro hcon
              cases hcon
            · rw [modifyAt_get?_other _ hj, ht] at h2
              exact ⟨t2, h2, Or.inl rfl⟩
          | none =>
            rw [dispatchBody_assign hsk]
            simp only
            have hmem : pc ∈ s1.clients := List.mem_of_find?_eq_some hpc
            have hcsome : (dictGet pc.1
                ({ s1 with tasks := modifyAt (procUpd now) s1.current_index s1.tasks } : TMState).clients).isSome :=
              dictGet_isSome_of_mem hmem
            rw [mark_client_busy_eq hcsome]
            simp only
            have hhit : (setTaskClientFirst task.id pc.1
                (modifyAt (procUpd now) s1.current_index s1.tasks)).get?
                  s1.current_index
                = some { procUpd now task with client_id := some pc.1 } := by
              show (updFirst task.id _ _).get? _ = _
              refine updFirst_get?_hit task.id _ _ _ ?_ (procUpd now task)
                ?_ rfl
              · intro j' t' hj' ht'
                rw [modifyAt_get?_other _ (by omega), ht] at ht'
                have hidj := h0.1 j' t' ht'
                intro hcon
                rw [hcon, hidx] at hidj
                omega
              · rw [modifyAt_get?_self, hget]
                rfl
            have hstep2 : TaskStepOk (s1.current_index + 1) s.tasks
                (setTaskClientFirst task.id pc.1
                  (modifyAt (procUpd now) s1.current_index s1.tasks)) := by
              intro j t2 h2
              by_cases hj : j = s1.current_index
              · subst hj
                rw [hhit] at h2
                cases h2
                exact ⟨task, ht ▸ hget,
                  Or.inr (Or.inr (Or.inr ⟨rfl, rfl, rfl, Nat.lt_succ_self _⟩))⟩
              · rcases updFirst_get? task.id
                    (fun t => { t with client_id := some pc.1 })
                    (modifyAt (procUpd now) s1.current_index s1.tasks) j
                  with he | ⟨t', ht', hid', hg'⟩
                · rw [show setTaskClientFirst task.id pc.1
                      (modifyAt (procUpd now) s1.current_index s1.tasks)
                      = updFirst task.id
                        (fun t => { t with client_id := some pc.1 })
                        (modifyAt (procUpd now) s1.current_index s1.tasks)
                    from rfl, he, modifyAt_get?_other _ hj, ht] at h2
                  exact ⟨t2, h2, Or.inl rfl⟩
                · rw [modifyAt_get?_other _ hj, ht] at ht'
                  have hidj := h0.1 j t' ht'
                  rw [hid', hidx] at hidj
                  omega
            by_cases hok : sendOk = true
            · rw [hok, if_pos rfl]
              exact inv0_of_taskStepOk h0
                (show s.current_index ≤ s1.current_index + 1 by omega) hstep2
            · rw [Bool.not_eq_true] at hok
              rw [hok, if_neg (by simp)]
              refine inv0_of_taskStepOk h0
                (show s.current_index ≤ s1.current_index + 1 by omega) ?_
              show TaskStepOk (s1.current_index + 1) s.tasks
                (modifyAt pendUpd s1.current_index
                  (setTaskClientFirst task.id pc.1
                    (modifyAt (procUpd now) s1.current_index s1.tasks)))
              intro j t2 h2
              by_cases hj : j = s1.current_index
              · subst hj
                rw [modifyAt_get?_self, hhit] at h2
                cases h2
                refine ⟨task, ht ▸ hget, Or.inr (Or.inl ⟨rfl, ?_⟩)⟩
                intro hcon
                cases hcon
              · rw [modifyAt_get?_other _ hj] at h2
                exact hstep2 j t2 h2


/-! ## The worker-pool invariant along well-addressed traces -/

theorem dictGet_filter_some {l : ClientDict} {q : ClientId × ClientInfo → Bool}
    {k : ClientId} {v : ClientInfo} (hnd : (l.map Prod.fst).Nodup)
    (h : dictGet k (l.filter q) = some v) : dictGet k l = some v := by
  have hmem : (k, v) ∈ l.filter q := mem_of_dictGet_eq_some h
  exact dictGet_eq_some_of_mem hnd (List.mem_of_mem_filter hmem)

theorem invC_init : InvC initState := by
  refine ⟨List.nodup_nil, ?_, ?_⟩
  · intro k info hk
    cases hk
  · intro k info tid hk
    cases hk

/-- No two live workers are assigned the same job: the job's recorded
worker id points back at both, so they coincide. -/
theorem no_share {s : TMState} (h0 : Inv0 s) (hC : InvC s)
    {k1 k2 : ClientId} {info1 info2 : ClientInfo} {tid : TaskId}
    (h1 : dictGet k1 s.clients = some info1)
    (h2 : dictGet k2 s.clients = some info2)
    (ht1 : info1.taskId = some tid) (ht2 : info2.taskId = some tid) :
    k1 = k2 := by
  obtain ⟨j1, t1, hj1, hid1, _, hcl1⟩ := hC.2.2 k1 info1 tid h1 ht1
  obtain ⟨j2, t2, hj2, hid2, _, hcl2⟩ := hC.2.2 k2 info2 tid h2 ht2
  have hidx1 := h0.1 j1 t1 hj1
  have hidx2 := h0.1 j2 t2 hj2
  have hj : j1 = j2 := by
    rw [← hidx1, ← hidx2, hid1, hid2]
  subst hj
  rw [hj1] at hj2
  cases hj2
  rw [hcl1] at hcl2
  cases hcl2
  rfl

theorem register_client_clients (url : String) (t : Nat) (s : TMState) :
    (register_client url t s).1.clients
      = dictSet
          (mkClientId
            (s.clients.filter (fun p => decide (¬ p.2.url = url))).length t)
          { url := url, busy := false, taskId := none,
            page_number := s.next_page_number, last_task_end := none }
          (s.clients.filter (fun p => decide (¬ p.2.url = url))) := rfl

theorem inv0_reachable {s : TMState} (h : Reachable s) : Inv0 s := by
  induction h with
  | init => exact inv0_init
  | step e hr ih => exact inv0_step e _ ih

theorem invC_step (e : Event) (s : TMState) (h0 : Inv0 s) (hC : InvC s)
    (hg : GoodEvent s e) : InvC (step e s) := by
  obtain ⟨hnd, hbusy, hass⟩ := hC
  cases e with
  | register url t =>
    show InvC (register_client url t s).1
    have hndf : ((s.clients.filter
        (fun p => decide (¬ p.2.url = url))).map Prod.fst).Nodup :=
      List.Nodup.sublist
        (List.Sublist.map Prod.fst (List.filter_sublist s.clients)) hnd
    refine ⟨?_, ?_, ?_⟩
    · show ((register_client url t s).1.clients.map Prod.fst).Nodup
      rw [register_client_clients]
      exact keys_dictSet_nodup hndf _
    · intro k info hk
      rw [show (register_client url t s).1.clients = _
        from register_client_clients url t s] at hk
      by_cases hkc : k = mkClientId
          (s.clients.filter (fun p => decide (¬ p.2.url = url))).length t
      · subst hkc
        rw [dictGet_dictSet_self] at hk
        cases hk
        rfl
      · rw [dictGet_dictSet_other hkc] at hk
        exact hbusy k info (dictGet_filter_some hnd hk)
    · intro k info tid hk hti
      rw [show (register_client url t s).1.clients = _
        from register_client_clients url t s] at hk
      by_cases hkc : k = mkClientId
          (s.clients.filter (fun p => decide (¬ p.2.url = url))).length t
      · subst hkc
        rw [dictGet_dictSet_self] at hk
        cases hk
        cases hti
      · rw [dictGet_dictSet_other hkc] at hk
        exact hass k info tid (dictGet_filter_some hnd hk) hti
  | unregister cid =>
    show InvC (remove_client cid s)
    cases hdg : dictGet cid s.clients with
    | none =>
      have hrc : remove_client cid s = s := by
        unfold remove_client
        rw [hdg]
      rw [hrc]
      exact ⟨hnd, hbusy, hass⟩
    | some infoC =>
      have hrc : remove_client cid s
          = { s with tasks := revertTasks infoC.taskId s.tasks,
                     clients := dictDelete cid s.clients } := by
        unfold remove_client
        rw [hdg]
      rw [hrc]
      refine ⟨?_, ?_, ?_⟩
      · show ((dictDelete cid s.clients).map Prod.fst).Nodup
        exact keys_dictDelete_nodup hnd cid
      · intro k info hk
        have hk' : dictGet k (dictDelete cid s.clients) = some info := hk
        by_cases hkc : k = cid
        · subst hkc
          rw [dictGet_dictDelete_self hnd] at hk'
          cases hk'
        · rw [dictGet_dictDelete_other hkc] at hk'
          exact hbusy k info hk'
      · intro k info tid hk hti
        have hk' : dictGet k (dictDelete cid s.clients) = some info := hk
        by_cases hkc : k = cid
        · subst hkc
          rw [dictGet_dictDelete_self hnd] at hk'
          cases hk'
        · rw [dictGet_dictDelete_other hkc] at hk'
          obtain ⟨j, t0, hj, hid, hst, hclid⟩ := hass k info tid hk' hti
          refine ⟨j, t0, ?_, hid, hst, hclid⟩
          show (revertTasks infoC.taskId s.tasks).get? j = some t0
          cases hti2 : infoC.taskId with
          | none => exact hj
          | some tidC =>
            show (s.tasks.map (fun task =>
              if task.id = tidC ∧ task.status = Status.processing then
                { task with status := Status.pending }
              else task)).get? j = some t0
            rw [List.get?_map, hj]
            show some (if t0.id = tidC ∧ t0.status = Status.processing then
              { t0 with status := Status.pending } else t0) = some t0
            have hne : ¬ (t0.id = tidC ∧ t0.status = Status.processing) := by
              rintro ⟨hidC, _⟩
              have htt : tidC = tid := by rw [← hidC, hid]
              exact hkc (no_share h0 ⟨hnd, hbusy, hass⟩ hk' hdg hti
                (htt ▸ hti2))
            rw [if_neg hne]
  | addTask prompt tt a res refs od row st =>
    show InvC (add_task prompt tt a res refs od row st s).1
    unfold add_task
    by_cases hp : strTrim prompt = ""
    · rw [if_pos hp]
      exact ⟨hnd, hbusy, hass⟩
    · rw [if_neg hp]
      refine ⟨hnd, hbusy, ?_⟩
      intro k info tid hk hti
      obtain ⟨j, t0, hj, hid, hst, hclid⟩ := hass k info tid hk hti
      have hjl : j < s.tasks.length := (List.get?_eq_some.mp hj).1
      exact ⟨j, t0, by rw [List.get?_append hjl]; exact hj, hid, hst, hclid⟩
  | markIdle cid now =>
    show InvC (mark_client_idle cid now s)
    refine ⟨?_, ?_, ?_⟩
    · show ((dictModify cid (idleUpd now) s.clients).map Prod.fst).Nodup
      rw [keys_dictModify]
      exact hnd
    · intro k info hk
      have hk' : dictGet k (dictModify cid (idleUpd now) s.clients)
          = some info := hk
      by_cases hkc : k = cid
      · rw [hkc, dictGet_dictModify_self] at hk'
        cases hv : dictGet cid s.clients with
        | none => rw [hv] at hk'; cases hk'
        | some v =>
          rw [hv] at hk'
          cases hk'
          rfl
      · rw [dictGet_dictModify_other hkc] at hk'
        exact hbusy k info hk'
    · intro k info tid hk hti
      have hk' : dictGet k (dictModify cid (idleUpd now) s.clients)
          = some info := hk
      by_cases hkc : k = cid
      · rw [hkc, dictGet_dictModify_self] at hk'
        cases hv : dictGet cid s.clients with
        | none => rw [hv] at hk'; cases hk'
        | some v =>
          rw [hv] at hk'
          cases hk'
          cases hti
      · rw [dictGet_dictModify_other hkc] at hk'
        exact hass k info tid hk' hti
  | statusMsg cid msg =>
    show InvC (handle_status cid msg s)
    unfold handle_status
    cases hb : (dictGet cid s.clients).bind ClientInfo.taskId with
    | none => exact ⟨hnd, hbusy, hass⟩
    | some tid =>
      refine ⟨hnd, hbusy, ?_⟩
      intro k info tid_k hk hti
      obtain ⟨j, t0, hj, hid, hst, hclid⟩ := hass k info tid_k hk hti
      show ∃ j t, (update_task_status_detail tid msg s.tasks).get? j = some t
        ∧ _
      rcases updFirst_get? tid (fun task => { task with status_detail := msg })
          s.tasks j with he | ⟨t1, ht1, _, hg1⟩
      · exact ⟨j, t0, by rw [show update_task_status_detail tid msg s.tasks
          = updFirst tid (fun task => { task with status_detail := msg })
            s.tasks from rfl, he]; exact hj, hid, hst, hclid⟩
      · rw [hj] at ht1
        cases ht1
        exact ⟨j, { t0 with status_detail := msg }, hg1, hid, hst, hclid⟩
  | sweep now =>
    show InvC (check_timeout_tasks now s).1
    have hkeys := sweepGo_keys now s.tasks s.clients
    have hcg := sweepGo_clients_get now s.tasks s.clients
    have htasks : (check_timeout_tasks now s).1.tasks
        = s.tasks.map (sweepOne now) := sweepGo_tasks now s.tasks s.clients
    refine ⟨?_, ?_, ?_⟩
    · show ((sweepGo now s.tasks s.clients).2.1.map Prod.fst).Nodup
      rw [hkeys]
      exact hnd
    · intro k info hk
      have hk' : dictGet k (sweepGo now s.tasks s.clients).2.1
          = some info := hk
      rw [hcg k] at hk'
      cases hv : dictGet k s.clients with
      | none => rw [hv] at hk'; cases hk'
      | some v =>
        rw [hv] at hk'
        have hiv : (if freedB now s.tasks k then clearCI v else v) = info :=
          Option.some.inj hk'
        by_cases hf : freedB now s.tasks k
        · rw [if_pos hf] at hiv
          rw [← hiv]
          rfl
        · rw [if_neg hf] at hiv
          rw [← hiv]
          exact hbusy k v hv
    · intro k info tid hk hti
      have hk' : dictGet k (sweepGo now s.tasks s.clients).2.1
          = some info := hk
      rw [hcg k] at hk'
      cases hv : dictGet k s.clients with
      | none => rw [hv] at hk'; cases hk'
      | some v =>
        rw [hv] at hk'
        have hiv : (if freedB now s.tasks k then clearCI v else v) = info :=
          Option.some.inj hk'
        by_cases hf : freedB now s.tasks k
        · rw [if_pos hf] at hiv
          rw [← hiv] at hti
          cases hti
        · rw [if_neg hf] at hiv
          subst hiv
          obtain ⟨j, t0, hj, hid, hst, hclid⟩ := hass k v tid hv hti
          have hmem : t0 ∈ s.tasks := List.mem_iff_get?.mpr ⟨j, hj⟩
          have hct : timeoutCond now t0 = false := by
            cases hct : timeoutCond now t0 with
            | false => rfl
            | true =>
              exact absurd (by
                rw [freedB, List.any_eq_true]
                exact ⟨t0, hmem, by
                  rw [Bool.and_eq_true, decide_eq_true_eq]
                  exact ⟨hct, hclid⟩⟩) hf
          have hsw : sweepOne now t0 = t0 := by
            unfold sweepOne
            rw [hct]
            rfl
          refine ⟨j, t0, ?_, hid, hst, hclid⟩
          rw [htasks, List.get?_map, hj]
          show some (sweepOne now t0) = some t0
          rw [hsw]
  | result cid tid error now =>
    show InvC (handle_result cid tid error now s)
    obtain ⟨infoS, hS, hSt⟩ := hg
    have hmain : ∀ tasks2 : List Task,
        (∀ k info tid_k, k ≠ cid → dictGet k s.clients = some info →
          info.taskId = some tid_k →
          ∃ j t, tasks2.get? j = some t ∧ t.id = tid_k ∧
            t.status = Status.processing ∧ t.client_id = some k) →
        InvC { s with
          tasks := tasks2,
          clients := dictModify cid (idleUpd now) s.clients } := by
      intro tasks2 hwit
      refine ⟨?_, ?_, ?_⟩
      · show ((dictModify cid (idleUpd now) s.clients).map Prod.fst).Nodup
        rw [keys_dictModify]
        exact hnd
      · intro k info hk
        have hk' : dictGet k (dictModify cid (idleUpd now) s.clients)
            = some info := hk
        by_cases hkc : k = cid
        · subst hkc
          rw [dictGet_dictModify_self, hS] at hk'
          cases hk'
          rfl
        · rw [dictGet_dictModify_other hkc] at hk'
          exact hbusy k info hk'
      · intro k info tid_k hk hti
        have hk' : dictGet k (dictModify cid (idleUpd now) s.clients)
            = some info := hk
        by_cases hkc : k = cid
        · subst hkc
          rw [dictGet_dictModify_self, hS] at hk'
          cases hk'
          cases hti
        · rw [dictGet_dictModify_other hkc] at hk'
          exact hwit k info tid_k hkc hk' hti
    cases error with
    | none =>
      exact hmain s.tasks (fun k info tid_k _ hk hti =>
        hass k info tid_k hk hti)
    | some err =>
      show InvC (mark_client_idle cid now
        (if err = "" then s
         else { s with tasks := setTaskFailedFirst tid err now s.tasks }))
      by_cases he : err = ""
      · rw [if_pos he]
        exact hmain s.tasks (fun k info tid_k _ hk hti =>
          hass k info tid_k hk hti)
      · rw [if_neg he]
        refine hmain (setTaskFailedFirst tid err now s.tasks) ?_
        intro k info tid_k hkc hk hti
        obtain ⟨j, t0, hj, hid, hst, hclid⟩ := hass k info tid_k hk hti
        rcases updFirst_get? tid (fun task =>
            { task with status := Status.failed, status_detail := err,
                        end_time := some now }) s.tasks j
          with he2 | ⟨t1, ht1, hid1, _⟩
        · exact ⟨j, t0, by
            rw [show setTaskFailedFirst tid err now s.tasks = updFirst tid
              (fun task =>
                { task with status := Status.failed, status_detail := err,
                            end_time := some now }) s.tasks from rfl, he2]
            exact hj, hid, hst, hclid⟩
        · rw [hj] at ht1
          cases ht1
          rw [hid] at hid1
          exact absurd (no_share h0 ⟨hnd, hbusy, hass⟩ hk hS
            (hid1 ▸ hti) hSt) hkc
  | imageResult cid tid tsStr fs saveOk now =>
    show InvC (handle_image_result cid tid tsStr fs saveOk now s)
    obtain ⟨infoS, hS, hSt⟩ := hg
    refine ⟨?_, ?_, ?_⟩
    · show ((dictModify cid (idleUpd now) _).map Prod.fst).Nodup
      rw [keys_dictModify]
      exact hnd
    · intro k info hk
      have hk' : dictGet k (dictModify cid (idleUpd now) s.clients)
          = some info := hk
      by_cases hkc : k = cid
      · rw [hkc, dictGet_dictModify_self, hS] at hk'
        cases hk'
        rfl
      · rw [dictGet_dictModify_other hkc] at hk'
        exact hbusy k info hk'
    · intro k info tid_k hk hti
      have hk' : dictGet k (dictModify cid (idleUpd now) s.clients)
          = some info := hk
      by_cases hkc : k = cid
      · rw [hkc, dictGet_dictModify_self, hS] at hk'
        cases hk'
        cases hti
      · rw [dictGet_dictModify_other hkc] at hk'
        obtain ⟨j, t0, hj, hid, hst, hclid⟩ := hass k info tid_k hk' hti
        rcases updFirst_get? tid (completeOne tsStr fs saveOk now) s.tasks j
          with he2 | ⟨t1, ht1, hid1, _⟩
        · exact ⟨j, t0, by
            show (updFirst tid (completeOne tsStr fs saveOk now)
              s.tasks).get? j = some t0
            rw [he2]
            exact hj, hid, hst, hclid⟩
        · rw [hj] at ht1
          cases ht1
          rw [hid] at hid1
          exact absurd (no_share h0 ⟨hnd, hbusy, hass⟩ hk' hS
            (hid1 ▸ hti) hSt) hkc
  | dispatch now fs sendOk =>
    show InvC (dispatchOnce now fs sendOk s)
    cases hgnt : get_next_task s with
    | mk ot s1 =>
      cases ot with
      | none =>
        obtain ⟨ht, hcl, hle, _⟩ := get_next_task_none hgnt
        rw [dispatchOnce_none hgnt]
        refine ⟨?_, ?_, ?_⟩
        · show (s1.clients.map Prod.fst).Nodup
          rw [hcl]
          exact hnd
        · intro k info hk
          rw [show dictGet k s1.clients = dictGet k s.clients
            from by rw [hcl]] at hk
          exact hbusy k info hk
        · intro k info tid hk hti
          rw [show dictGet k s1.clients = dictGet k s.clients
            from by rw [hcl]] at hk
          obtain ⟨j, t0, hj, hrest⟩ := hass k info tid hk hti
          exact ⟨j, t0, by rw [ht]; exact hj, hrest⟩
      | some task =>
        obtain ⟨ht, hcl, hle, hget, hpend, _⟩ := get_next_task_some hgnt
        cases hpc : get_idle_client now s1 with
        | none =>
          rw [dispatchOnce_noIdle hgnt hpc]
          refine ⟨?_, ?_, ?_⟩
          · show (s1.clients.map Prod.fst).Nodup
            rw [hcl]
            exact hnd
          · intro k info hk
            rw [show dictGet k s1.clients = dictGet k s.clients
              from by rw [hcl]] at hk
            exact hbusy k info hk
          · intro k info tid hk hti
            rw [show dictGet k s1.clients = dictGet k s.clients
              from by rw [hcl]] at hk
            obtain ⟨j, t0, hj, hrest⟩ := hass k info tid hk hti
            exact ⟨j, t0, by rw [ht]; exact hj, hrest⟩
        | some pc =>
          rw [dispatchOnce_found hgnt hpc]
          have hidx : task.id.idx = s1.current_index :=
            h0.1 s1.current_index task (ht ▸ hget)
          have hnd1 : (s1.clients.map Prod.fst).Nodup := by
            rw [hcl]
            exact hnd
          have hji : ∀ j t0, s.tasks.get? j = some t0 →
              t0.status = Status.processing → j ≠ s1.current_index := by
            intro j t0 hj hst he
            subst he
            have hg2 : s.tasks.get? s1.current_index = some task := by
              rw [← ht]
              exact hget
            rw [hg2] at hj
            have ht0 : task = t0 := Option.some.inj hj
            rw [← ht0, hpend] at hst
            cases hst
          cases hsk : skipHit fs task with
          | some fp =>
            rw [dispatchBody_skip hsk]
            refine ⟨?_, ?_, ?_⟩
            · show (s1.clients.map Prod.fst).Nodup
              exact hnd1
            · intro k info hk
              rw [show dictGet k s1.clients = dictGet k s.clients
                from by rw [hcl]] at hk
              exact hbusy k info hk
            · intro k info tid hk hti
              rw [show dictGet k s1.clients = dictGet k s.clients
                from by rw [hcl]] at hk
              obtain ⟨j, t0, hj, hid, hst, hclid⟩ := hass k info tid hk hti
              refine ⟨j, t0, ?_, hid, hst, hclid⟩
              show (modifyAt _ s1.current_index s1.tasks).get? j = some t0
              rw [modifyAt_get?_other _ (hji j t0 hj hst), ht]
              exact hj
          | none =>
            rw [dispatchBody_assign hsk]
            simp only
            have hmem : pc ∈ s1.clients := List.mem_of_find?_eq_some hpc
            have hpcv : dictGet pc.1 s1.clients = some pc.2 :=
              dictGet_eq_some_of_mem hnd1 hmem
            have hcsome : (dictGet pc.1
                ({ s1 with tasks := modifyAt (procUpd now) s1.current_index s1.tasks } : TMState).clients).isSome :=
              dictGet_isSome_of_mem hmem
            rw [mark_client_busy_eq hcsome]
            simp only
            have hhit : (setTaskClientFirst task.id pc.1
                (modifyAt (procUpd now) s1.current_index s1.tasks)).get?
                  s1.current_index
                = some { procUpd now task with client_id := some pc.1 } := by
              show (updFirst task.id _ _).get? _ = _
              refine updFirst_get?_hit task.id _ _ _ ?_ (procUpd now task)
                ?_ rfl
              · intro j' t' hj' ht'
                rw [modifyAt_get?_other _ (by omega), ht] at ht'
                have hidj := h0.1 j' t' ht'
                intro hcon
                rw [hcon, hidx] at hidj
                omega
              · rw [modifyAt_get?_self, hget]
                rfl
            have hother : ∀ j t0, s.tasks.get? j = some t0 →
                t0.status = Status.processing → t0.id ≠ task.id →
                (setTaskClientFirst task.id pc.1
                  (modifyAt (procUpd now) s1.current_index s1.tasks)).get? j
                  = some t0 := by
              intro j t0 hj hst hne
              have hjne := hji j t0 hj hst
              rcases updFirst_get? task.id
                  (fun t => { t with client_id := some pc.1 })
                  (modifyAt (procUpd now) s1.current_index s1.tasks) j
                with he2 | ⟨t1, ht1, hid1, _⟩
              · show (updFirst task.id _ _).get? j = some t0
                rw [he2, modifyAt_get?_other _ hjne, ht]
                exact hj
              · rw [modifyAt_get?_other _ hjne, ht, hj] at ht1
                cases ht1
                exact absurd hid1 hne
            have hbusy2 : ∀ k info,
                dictGet k (dictModify pc.1
                  (fun info => { info with busy := true, taskId := some task.id })
                  s1.clients)
                  = some info →
                info.busy = info.taskId.isSome := by
              intro k info hk
              by_cases hkc : k = pc.1
              · subst hkc
                rw [dictGet_dictModify_self, hpcv] at hk
                cases hk
                rfl
              · rw [dictGet_dictModify_other hkc, hcl] at hk
                exact hbusy k info hk
            by_cases hok : sendOk = true
            · rw [hok, if_pos rfl]
              refine ⟨?_, ?_, ?_⟩
              · show ((dictModify pc.1 _ s1.clients).map Prod.fst).Nodup
                rw [keys_dictModify]
                exact hnd1
              · intro k info hk
                exact hbusy2 k info hk
              · intro k info tid hk hti
                have hk' : dictGet k (dictModify pc.1
                    (fun info => { info with busy := true, taskId := some task.id })
                    s1.clients)
                    = some info := hk
                by_cases hkc : k = pc.1
                · subst hkc
                  rw [dictGet_dictModify_self, hpcv] at hk'
                  cases hk'
                  cases hti
                  exact ⟨s1.current_index,
                    { procUpd now task with client_id := some pc.1 },
                    hhit, rfl, rfl, rfl⟩
                · rw [dictGet_dictModify_other hkc, hcl] at hk'
                  obtain ⟨j, t0, hj, hid, hst, hclid⟩ :=
                    hass k info tid hk' hti
                  refine ⟨j, t0, ?_, hid, hst, hclid⟩
                  refine hother j t0 hj hst ?_
                  intro hide
                  have hidj := h0.1 j t0 hj
                  rw [hide, hidx] at hidj
                  exact hji j t0 hj hst hidj.symm
            · rw [Bool.not_eq_true] at hok
              rw [hok, if_neg (by simp)]
              refine ⟨?_, ?_, ?_⟩
              · show ((dictModify pc.1 (idleUpd now)
                  (dictModify pc.1 _ s1.clients)).map Prod.fst).Nodup
                rw [keys_dictModify, keys_dictModify]
                exact hnd1
              · intro k info hk
                have hk' : dictGet k (dictModify pc.1 (idleUpd now)
                    (dictModify pc.1
                      (fun info => { info with busy := true, taskId := some task.id })
                      s1.clients)) = some info := hk
                by_cases hkc : k = pc.1
                · subst hkc
                  rw [dictGet_dictModify_self] at hk'
                  cases hv : dictGet pc.1 (dictModify pc.1
                      (fun info => { info with busy := true, taskId := some task.id })
                      s1.clients) with
                  | none => rw [hv] at hk'; cases hk'
                  | some v =>
                    rw [hv] at hk'
                    cases hk'
                    rfl
                · rw [dictGet_dictModify_other hkc,
                    dictGet_dictModify_other hkc, hcl] at hk'
                  exact hbusy k info hk'
              · intro k info tid hk hti
                have hk' : dictGet k (dictModify pc.1 (idleUpd now)
                    (dictModify pc.1
                      (fun info => { info with busy := true, taskId := some task.id })
                      s1.clients)) = some info := hk
                by_cases hkc : k = pc.1
                · subst hkc
                  rw [dictGet_dictModify_self] at hk'
                  cases hv : dictGet pc.1 (dictModify pc.1
                      (fun info => { info with busy := true, taskId := some task.id })
                      s1.clients) with
                  | none => rw [hv] at hk'; cases hk'
                  | some v =>
                    rw [hv] at hk'
                    cases hk'
                    cases hti
                · rw [dictGet_dictModify_other hkc,
                    dictGet_dictModify_other hkc, hcl] at hk'
                  obtain ⟨j, t0, hj, hid, hst, hclid⟩ :=
                    hass k info tid hk' hti
                  refine ⟨j, t0, ?_, hid, hst, hclid⟩
                  show (modifyAt pendUpd s1.current_index _).get? j
                    = some t0
                  rw [modifyAt_get?_other _ (hji j t0 hj hst)]
                  refine hother j t0 hj hst ?_
                  intro hide
                  have hidj := h0.1 j t0 hj
                  rw [hide, hidx] at hidj
                  exact hji j t0 hj hst hidj.symm

theorem invC_good {s : TMState} (h : GoodReachable s) : Inv0 s ∧ InvC s := by
  induction h with
  | init => exact ⟨inv0_init, invC_init⟩
  | step e hr hge ih => exact ⟨inv0_step e _ ih.1, invC_step e _ ih.1 ih.2 hge⟩

/-! ## The claims -/

/-- C1 counterexample: register a page, queue and dispatch a job (worker
busy, job `processing`, cursor advanced to 1), then disconnect the worker.
The job's status is reset to `pending`, but the next call to
`get_next_task` returns nothing at all — the scan starts at the stored
cursor (1), past the reverted job's index (0), so the job is not
redispatched even though no earlier-indexed job is pending. -/
theorem C1_counterexample :
    Reachable sDrop ∧
    sDisp.tasks.map Task.status = [Status.processing] ∧
    sDisp.current_index = 1 ∧
    sDrop.tasks.map Task.status = [Status.pending] ∧
    sDrop.current_index = 1 ∧
    (get_next_task sDrop).1 = none := by
  refine ⟨?_, by decide, by decide, by decide, by decide, by decide⟩
  exact Reachable.step _ (Reachable.step _ (Reachable.step _
    (Reachable.step _ Reachable.init)))

/-- C1 (amended): unregistering a worker reverts its still-`processing` job
to `pending` in place, but the scan cursor is not rewound; in every
reachable state each `processing` job already sits strictly below the
cursor (dispatch advances the cursor right past it), and `get_next_task`
only ever returns the job at its final (monotonically advanced) cursor
position — so the next call to `next_pending` never returns the reverted
job at its original index. -/
theorem C1_unregister_no_redispatch (s : TMState) (hs : Reachable s)
    (cid : ClientId) :
    ((remove_client cid s).current_index = s.current_index)
    ∧ (∀ j t, s.tasks.get? j = some t → t.status = Status.processing →
        j < s.current_index)
    ∧ (∀ info tid, dictGet cid s.clients = some info →
        info.taskId = some tid →
        ∀ j t, s.tasks.get? j = some t → t.id = tid →
          t.status = Status.processing →
          ((remove_client cid s).tasks.get? j).map Task.status
            = some Status.pending)
    ∧ (∀ ot s2, get_next_task (remove_client cid s) = (ot, s2) →
        ∀ t2, ot = some t2 →
          s.current_index ≤ s2.current_index ∧
          s2.tasks.get? s2.current_index = some t2)
    ∧ (∀ j t, s.tasks.get? j = some t → t.status = Status.processing →
        ∀ ot s2, get_next_task (remove_client cid s) = (ot, s2) →
          ∀ t2, ot = some t2 → s2.current_index ≠ j) := by
  have h0 := inv0_reachable hs
  have hcur : (remove_client cid s).current_index = s.current_index := by
    unfold remove_client
    cases hdg : dictGet cid s.clients with
    | none => rfl
    | some info => rfl
  have hscan : ∀ ot s2, get_next_task (remove_client cid s) = (ot, s2) →
      ∀ t2, ot = some t2 →
        s.current_index ≤ s2.current_index ∧
        s2.tasks.get? s2.current_index = some t2 := by
    intro ot s2 hg t2 hot
    subst hot
    obtain ⟨_, _, hle, hget, _, _⟩ := get_next_task_some hg
    rw [hcur] at hle
    exact ⟨hle, hget⟩
  refine ⟨hcur, fun j t hj hp => h0.2.1 j t hj hp, ?_, hscan, ?_⟩
  · intro info tid hinfo htid j t hj hid hp
    have hrc : remove_client cid s
        = { s with tasks := revertTasks info.taskId s.tasks,
                   clients := dictDelete cid s.clients } := by
      unfold remove_client
      rw [hinfo]
    rw [hrc, htid]
    show ((s.tasks.map _).get? j).map Task.status = _
    rw [List.get?_map, hj]
    show ((some (if t.id = tid ∧ t.status = Status.processing then
      { t with status := Status.pending } else t)).map Task.status) = _
    rw [if_pos ⟨hid, hp⟩]
    rfl
  · intro j t hj hp ot s2 hg t2 hot
    have hlt := h0.2.1 j t hj hp
    have := (hscan ot s2 hg t2 hot).1
    omega

theorem C1_witness :
    (dictGet (mkClientId 0 10) sDisp.clients = some infoDisp) ∧
    (sDisp.tasks.get? 0 = some tskDisp) ∧
    ((remove_client (mkClientId 0 10) sDisp).current_index
      = sDisp.current_index) ∧
    (((remove_client (mkClientId 0 10) sDisp).tasks.get? 0).map Task.status
      = some Status.pending) := by
  have h := C1_unregister_no_redispatch sDisp
    (Reachable.step _ (Reachable.step _ (Reachable.step _ Reachable.init)))
    (mkClientId 0 10)
  exact ⟨by decide, by decide, h.1,
    h.2.2.1 infoDisp (mkTaskId 0 1) (by decide) (by decide) 0 tskDisp
      (by decide) (by decide) (by decide)⟩

/-- C3 counterexample: dispatch a job and let its worker deliver and
persist the payload.  The job's status is `completed`, yet its assigned
worker id is still set — no transition out of `processing` clears the
job's `client_id` field, refuting the claimed "if and only if". -/
theorem C3_counterexample :
    Reachable sDone ∧
    sDone.tasks.map (fun t => (t.status, t.client_id))
      = [(Status.completed, some (mkClientId 0 10))] := by
  refine ⟨?_, by decide⟩
  exact Reachable.step _ (Reachable.step _ (Reachable.step _
    (Reachable.step _ Reachable.init)))

/-- C3 (amended): in every reachable state, a job whose status is
`processing` has an assigned worker id (dispatch records the worker in the
same step that sets the status); the converse fails — the worker id, once
set, is never cleared by any transition out of `processing`. -/
theorem C3_processing_has_worker (s : TMState) (hs : Reachable s) :
    ∀ t ∈ s.tasks, t.status = Status.processing → t.client_id.isSome :=
  (inv0_reachable hs).2.2

theorem C3_witness :
    tskDisp ∈ sDisp.tasks ∧ tskDisp.status = Status.processing ∧
    tskDisp.client_id.isSome :=
  ⟨by decide, by decide,
   C3_processing_has_worker sDisp
     (Reachable.step _ (Reachable.step _ (Reachable.step _ Reachable.init)))
     tskDisp (by decide) (by decide)⟩

/-- C7 (confirmed): feeding the reassembler fragments 0:"b", 2:"d", 1:"c"
with a declared total of 3, in that arrival order, yields no payload on the
first two ingests and the index-ordered join "bcd" (with the buffer entry
deleted) on the third. -/
theorem C7_chunk_roundtrip :
    ingest [] 0 3 "b" = some ([(0, "b")], none) ∧
    ingest [(0, "b")] 2 3 "d" = some ([(0, "b"), (2, "d")], none) ∧
    ingest [(0, "b"), (2, "d")] 1 3 "c" = some ([], some "bcd") := by
  decide

/-- C4 counterexample: the completion test compares the buffer's cardinality
with the declared total, not its coverage of `0..total-1`; ingesting the
single fragment at index 1 with a declared total of 1 makes the cardinality
match while slot 0 is missing, so the index-ordered join looks up a missing
slot (a `KeyError` in the source), refuting both the "exactly when all
indices 0..total-1 are present" and the "join always succeeds" parts. -/
theorem C4_counterexample :
    ingest [] 1 1 "x" = none ∧
    ¬ (∀ j < 1, (bufGet j (bufSet 1 "x" [])).isSome) := by
  decide

/-- C4 (amended): provided the declared total is positive and every ingested
chunk index lies in `0..total-1`, then for every arrival sequence (any
order, duplicates overwriting the same slot) no join ever looks up a
missing slot, the payload is emitted and the buffer entry deleted exactly
when all of `0..total-1` are present, and the emitted payload is the
index-ordered join. -/
theorem C4_chunk_reassembly (total : Nat) (msgs : List (Nat × String))
    (htot : 0 < total) (hidx : ∀ m ∈ msgs, m.1 < total) :
    ChunkSafe total msgs [] := by
  have hinv : BufInv total [] := by
    refine ⟨List.nodup_nil, ?_, htot⟩
    intro k hk
    exact absurd hk (by simp)
  exact chunkSafe_of_inv msgs [] hinv hidx

theorem C4_witness :
    0 < 2 ∧ (∀ m ∈ [(1, "y"), (0, "x")], m.1 < 2) ∧
    ChunkSafe 2 [(1, "y"), (0, "x")] [] :=
  ⟨by decide, by decide,
   C4_chunk_reassembly 2 [(1, "y"), (0, "x")] (by decide) (by decide)⟩

/-- C5 counterexample: worker ids are minted from the post-eviction pool
size and the clock second; after registering pages p1 and p2 at second 100
and removing p1's worker, registering page p3 at second 100 reuses id
`c1_100`, which still names p2's live worker — p2's pool entry is
overwritten by p3's registration instead of a fresh id being assigned. -/
theorem C5_counterexample :
    Reachable sCollide ∧
    (dictGet (mkClientId 1 100) sCollide.clients).map (fun i => i.url)
      = some "p2" ∧
    (register_client "p3" 100 sCollide).2.1 = mkClientId 1 100 ∧
    (register_client "p3" 100 sCollide).1.clients.map
        (fun p => (p.1, p.2.url))
      = [(mkClientId 1 100, "p3")] := by
  refine ⟨?_, by decide, by decide, by decide⟩
  exact Reachable.step (Event.unregister (mkClientId 0 100))
    (Reachable.step (Event.register "p2" 100)
      (Reachable.step (Event.register "p1" 100) Reachable.init))

/-- C5 (amended): the worker id is the deterministic function `mkClientId`
of the post-eviction pool size and the clock second; whenever no surviving
worker already bears that id, registration appends a genuinely fresh entry
and displaces nobody — but (per the counterexample) a registration after a
removal within the same clock second (mod 10000) can collide with and
overwrite another page's entry. -/
theorem C5_register_fresh (s : TMState) (url : String) (t : Nat)
    (h : ∀ p ∈ s.clients.filter (fun p => decide (¬ p.2.url = url)),
      p.1 ≠ mkClientId
        (s.clients.filter (fun p => decide (¬ p.2.url = url))).length t) :
    (register_client url t s).1.clients
      = s.clients.filter (fun p => decide (¬ p.2.url = url))
        ++ [((register_client url t s).2.1,
             { url := url, busy := false, taskId := none,
               page_number := s.next_page_number, last_task_end := none })]
    ∧ ∀ p ∈ s.clients.filter (fun p => decide (¬ p.2.url = url)),
        p.1 ≠ (register_client url t s).2.1 := by
  have hnm : mkClientId
      (s.clients.filter (fun p => decide (¬ p.2.url = url))).length t
      ∉ (s.clients.filter (fun p => decide (¬ p.2.url = url))).map
          Prod.fst := by
    intro hmem
    rcases List.mem_map.mp hmem with ⟨p, hp, hpk⟩
    exact h p hp hpk
  constructor
  · show dictSet _ _ _ = _
    rw [dictSet_of_not_mem hnm]
    rfl
  · intro p hp
    exact h p hp

theorem C5_witness :
    (∀ p ∈ sReg1.clients.filter (fun p => decide (¬ p.2.url = "p2")),
      p.1 ≠ mkClientId
        (sReg1.clients.filter (fun p => decide (¬ p.2.url = "p2"))).length
        100) ∧
    (register_client "p2" 100 sReg1).1.clients
      = sReg1.clients.filter (fun p => decide (¬ p.2.url = "p2"))
        ++ [((register_client "p2" 100 sReg1).2.1,
             { url := "p2", busy := false, taskId := none,
               page_number := sReg1.next_page_number,
               last_task_end := none })] :=
  ⟨by decide, (C5_register_fresh sReg1 "p2" 100 (by decide)).1⟩

/-- C6 counterexample: the sweep returns the stale job and clears its
worker's busy flag, but it writes the two fields directly instead of
calling `mark_client_idle`, so the worker's `last_task_end` keeps its old
value `50` instead of being stamped with the sweep time `1000` — unlike the
stamp `mark_client_idle` itself would have made.  A worker freed by a
timeout therefore does not enter a fresh cooldown window. -/
theorem C6_counterexample :
    (check_timeout_tasks 1000 sStale).2.length = 1 ∧
    (check_timeout_tasks 1000 sStale).1.clients.map
        (fun p => (p.2.busy, p.2.last_task_end)) = [(false, some 50)] ∧
    (mark_client_idle (mkClientId 0 5) 1000 sStale).clients.map
        (fun p => p.2.last_task_end) = [some 1000] := by
  decide

/-- C6 (amended): the sweep frees the assigned worker of every returned job
by clearing its busy flag and current job id directly, without touching
`last_task_end` (or any other identity field) of any worker — so a worker
freed by a timeout starts no new cooldown window, unlike one freed through
`mark_client_idle` on normal completion. -/
theorem C6_sweep_no_cooldown (s : TMState) (now : Nat) :
    (check_timeout_tasks now s).1.clients.map ciView = s.clients.map ciView
    ∧ (∀ t ∈ (check_timeout_tasks now s).2, ∀ cid, t.client_id = some cid →
        ∀ info, dictGet cid (check_timeout_tasks now s).1.clients
          = some info → info.busy = false ∧ info.taskId = none) :=
  ⟨sweepGo_clients_ciView now s.tasks s.clients, sweep_frees s now⟩

theorem C6_witness :
    (applyTimeout 1000 tskT ∈ (check_timeout_tasks 1000 sStale).2) ∧
    (check_timeout_tasks 1000 sStale).1.clients.map ciView
      = sStale.clients.map ciView ∧
    (∀ info, dictGet (mkClientId 0 5)
        (check_timeout_tasks 1000 sStale).1.clients = some info →
      info.busy = false ∧ info.taskId = none) :=
  ⟨by decide, (C6_sweep_no_cooldown sStale 1000).1,
   fun info hinfo => (C6_sweep_no_cooldown sStale 1000).2
     (applyTimeout 1000 tskT) (by decide) (mkClientId 0 5) (by decide)
     info hinfo⟩

/-- C9 (confirmed): the sweep turns exactly the `processing` jobs whose
start stamp is more than the threshold old into `timedOut`, stamps their
end time and detail, returns them, leaves every other job unchanged at its
index, and leaves each returned job's assigned worker with `busy = false`
(and no current job id). -/
theorem C9_timeout_sweep (s : TMState) (now : Nat) :
    (check_timeout_tasks now s).1.tasks = s.tasks.map (sweepOne now)
    ∧ (check_timeout_tasks now s).2
        = (s.tasks.filter (timeoutCond now)).map (applyTimeout now)
    ∧ (∀ t ∈ (check_timeout_tasks now s).2,
        t.status = Status.timedOut ∧ t.end_time = some now ∧
        t.status_detail = timeoutDetail)
    ∧ (∀ j t, s.tasks.get? j = some t → timeoutCond now t = false →
        (check_timeout_tasks now s).1.tasks.get? j = some t)
    ∧ (∀ t ∈ (check_timeout_tasks now s).2, ∀ cid, t.client_id = some cid →
        ∀ info, dictGet cid (check_timeout_tasks now s).1.clients
          = some info → info.busy = false ∧ info.taskId = none) := by
  have htasks : (check_timeout_tasks now s).1.tasks
      = s.tasks.map (sweepOne now) := sweepGo_tasks now s.tasks s.clients
  have houts : (check_timeout_tasks now s).2
      = (s.tasks.filter (timeoutCond now)).map (applyTimeout now) :=
    sweepGo_outs now s.tasks s.clients
  refine ⟨htasks, houts, ?_, ?_, sweep_frees s now⟩
  · intro t ht
    rw [houts] at ht
    rcases List.mem_map.mp ht with ⟨t0, _, rfl⟩
    exact ⟨rfl, rfl, rfl⟩
  · intro j t hj hcond
    rw [htasks, List.get?_map, hj]
    simp [sweepOne, hcond]

theorem C9_witness :
    (sStale.tasks.get? 0 = some tskT ∧ timeoutCond 1000 tskT = true) ∧
    ((check_timeout_tasks 1000 sStale).2
      = [applyTimeout 1000 tskT]) ∧
    (∀ info, dictGet (mkClientId 0 5)
        (check_timeout_tasks 1000 sStale).1.clients = some info →
      info.busy = false ∧ info.taskId = none) :=
  ⟨by decide, by
    have h := (C9_timeout_sweep sStale 1000).2.1
    rw [h]; decide,
   fun info hinfo => (C9_timeout_sweep sStale 1000).2.2.2.2
     (applyTimeout 1000 tskT) (by decide) (mkClientId 0 5) (by decide)
     info hinfo⟩

/-- C10 (implicit, confirmed): handling a `result` message always marks the
sending (registered) worker idle — busy cleared, current job id cleared,
`last_task_end` stamped with the current time so the cooldown window starts
— for every error value and every named job id, existing or not; and when
no error is present the task list is completely untouched, so a job whose
status is `processing` stays `processing` until the payload is persisted. -/
theorem C10_result_frees_worker (s : TMState) (cid : ClientId) (tid : TaskId)
    (error : Option String) (now : Nat)
    (hreg : (dictGet cid s.clients).isSome) :
    (∃ info, dictGet cid (handle_result cid tid error now s).clients
        = some info ∧ info.busy = false ∧ info.taskId = none ∧
        info.last_task_end = some now)
    ∧ (error = none → (handle_result cid tid error now s).tasks = s.tasks) := by
  cases hv : dictGet cid s.clients with
  | none => rw [hv] at hreg; cases hreg
  | some v =>
    have hcl : (handle_result cid tid error now s).clients
        = dictModify cid (idleUpd now) s.clients := by
      cases error with
      | none => rfl
      | some err =>
        show (mark_client_idle cid now
          (if err = "" then s
           else { s with
                  tasks := setTaskFailedFirst tid err now s.tasks })).clients
          = _
        by_cases he : err = ""
        · rw [if_pos he]; rfl
        · rw [if_neg he]; rfl
    constructor
    · refine ⟨idleUpd now v, ?_, rfl, rfl, rfl⟩
      rw [hcl, dictGet_dictModify_self, hv]
      rfl
    · intro herr
      subst herr
      rfl

theorem C10_witness :
    (dictGet (mkClientId 0 10) sDisp.clients).isSome ∧
    (∃ info, dictGet (mkClientId 0 10)
        (handle_result (mkClientId 0 10) (mkTaskId 0 1) none 30 sDisp).clients
        = some info ∧ info.busy = false ∧ info.taskId = none ∧
        info.last_task_end = some 30) ∧
    (handle_result (mkClientId 0 10) (mkTaskId 0 1) none 30 sDisp).tasks
      = sDisp.tasks :=
  ⟨by decide,
   (C10_result_frees_worker sDisp (mkClientId 0 10) (mkTaskId 0 1) none 30
     (by decide)).1,
   (C10_result_frees_worker sDisp (mkClientId 0 10) (mkTaskId 0 1) none 30
     (by decide)).2 rfl⟩

/-- C8 (confirmed): when the dispatch pass reaches a pending job carrying a
truthy import row tag whose target output path (resolved output directory
joined with row tag and extension) already exists in the filesystem
snapshot, the job is set directly to `completed` with the "file already
exists, skipped" detail and its target path recorded, the worker pool is
left completely untouched (no worker is marked busy for it), the cursor
advances past it — and any later dispatch pass leaves its status and detail
unchanged (the scan never returns to an index below the cursor), so a
re-run is idempotent. -/
theorem C8_import_skip (s : TMState) (now : Nat) (fs : List String)
    (sendOk : Bool) (task : Task) (s1 : TMState) (row : String)
    (hscan : get_next_task s = (some task, s1))
    (hrow : strOpt task.import_row_number = some row)
    (hex : fs.contains (joinPath (resolveOutputDir task.output_dir)
      (row ++ task.file_ext)) = true)
    (hidle : (get_idle_client now s1).isSome) :
    (dispatchOnce now fs sendOk s).clients = s.clients
    ∧ ((dispatchOnce now fs sendOk s).tasks.get? s1.current_index).map
        (fun t => (t.status, t.status_detail, t.saved_path))
      = some (Status.completed, skipDetail,
          some (joinPath (resolveOutputDir task.output_dir)
            (row ++ task.file_ext)))
    ∧ (dispatchOnce now fs sendOk s).current_index = s1.current_index + 1
    ∧ ∀ (now2 : Nat) (fs2 : List String) (sendOk2 : Bool),
        ((dispatchOnce now2 fs2 sendOk2
            (dispatchOnce now fs sendOk s)).tasks.get?
          s1.current_index).map (fun t => (t.status, t.status_detail))
        = some (Status.completed, skipDetail) := by
  obtain ⟨ht, hcl, hle, hget, hpend, _⟩ := get_next_task_some hscan
  cases hpc : get_idle_client now s1 with
  | none => rw [hpc] at hidle; cases hidle
  | some pc =>
    have hskip : skipHit fs task
        = some (joinPath (resolveOutputDir task.output_dir)
            (row ++ task.file_ext)) := by
      unfold skipHit
      rw [hrow]
      simp only [hex, if_true]
    have heq : dispatchOnce now fs sendOk s
        = { s1 with
            tasks := modifyAt
              (skipUpd now
                (joinPath (resolveOutputDir task.output_dir)
                  (row ++ task.file_ext))
                (resolveOutputDir task.output_dir))
              s1.current_index s1.tasks,
            current_index := s1.current_index + 1 } := by
      rw [dispatchOnce_found hscan hpc, dispatchBody_skip hskip]
    have hgot : (dispatchOnce now fs sendOk s).tasks.get? s1.current_index
        = some (skipUpd now
            (joinPath (resolveOutputDir task.output_dir)
              (row ++ task.file_ext))
            (resolveOutputDir task.output_dir) task) := by
      rw [heq]
      simp only
      rw [modifyAt_get?_self, hget]
      rfl
    refine ⟨?_, ?_, ?_, ?_⟩
    · rw [heq]
      exact hcl
    · rw [hgot]
      rfl
    · rw [heq]
    · intro now2 fs2 sendOk2
      have hlt : s1.current_index < (dispatchOnce now fs sendOk s).current_index := by
        rw [heq]
        exact Nat.lt_succ_self _
      rw [dispatchOnce_preserves_below now2 fs2 sendOk2 _ _ hlt, hgot]
      rfl

theorem C8_witness :
    (get_next_task sImport = (some taskImp, sImport)) ∧
    (strOpt taskImp.import_row_number = some "7") ∧
    (fsImport.contains (joinPath (resolveOutputDir taskImp.output_dir)
      ("7" ++ taskImp.file_ext)) = true) ∧
    ((get_idle_client 20 sImport).isSome) ∧
    (dispatchOnce 20 fsImport true sImport).clients = sImport.clients ∧
    ((dispatchOnce 20 fsImport true sImport).tasks.get?
        sImport.current_index).map
      (fun t => (t.status, t.status_detail, t.saved_path))
      = some (Status.completed, skipDetail,
          some (joinPath (resolveOutputDir taskImp.output_dir)
            ("7" ++ taskImp.file_ext))) ∧
    ((dispatchOnce 25 [] false
        (dispatchOnce 20 fsImport true sImport)).tasks.get?
      sImport.current_index).map (fun t => (t.status, t.status_detail))
      = some (Status.completed, skipDetail) := by
  have h := C8_import_skip sImport 20 fsImport true taskImp sImport "7"
    (by decide) (by decide) (by decide) (by decide)
  exact ⟨by decide, by decide, by decide, by decide, h.1, h.2.1,
    h.2.2.2 25 [] false⟩

/-- C2 counterexample: two pages register, a job is dispatched to the first
worker, then the *second* worker sends a `result` message naming the first
worker's job with an error.  The job is marked `failed` (and the sender
idled), but the first worker is never touched: it remains `busy` with a
current job id naming a job that is no longer `processing`, refuting the
unrestricted "busy iff assigned-to-a-processing-job" invariant. -/
theorem C2_counterexample :
    Reachable sCross ∧
    dictGet (mkClientId 0 10) sCross.clients = some infoDisp ∧
    infoDisp.busy = true ∧
    infoDisp.taskId = some (mkTaskId 0 1) ∧
    ¬ ∃ t ∈ sCross.tasks, t.id = mkTaskId 0 1 ∧
        t.status = Status.processing := by
  refine ⟨?_, by decide, by decide, by decide, by decide⟩
  exact Reachable.step _ (Reachable.step _ (Reachable.step _
    (Reachable.step _ (Reachable.step _ Reachable.init))))

/-- C2 (amended): along traces whose `result`/payload messages are all
well-addressed — each names the job currently assigned to the worker
connection it arrives on, which is how the page client behaves — the
claimed invariant holds: a registered worker's busy flag is set iff its
current job id names a `processing` job whose assigned worker id is this
worker.  Cross-worker messages (see the counterexample) break the
unrestricted version, because `handle_result`/`handle_image_result` close
the named job but idle only the sender. -/
theorem C2_busy_iff (s : TMState) (hs : GoodReachable s) :
    ∀ k info, dictGet k s.clients = some info →
      (info.busy = true ↔ ∃ tid, info.taskId = some tid ∧
        ∃ j t, s.tasks.get? j = some t ∧ t.id = tid ∧
          t.status = Status.processing ∧ t.client_id = some k) := by
  obtain ⟨h0, hnd, hbusy, hass⟩ := invC_good hs
  intro k info hk
  constructor
  · intro hb
    have hbi := hbusy k info hk
    cases hti : info.taskId with
    | none =>
      rw [hti, hb] at hbi
      exact Bool.noConfusion hbi
    | some tid =>
      exact ⟨tid, rfl, hass k info tid hk hti⟩
  · rintro ⟨tid, hti, -⟩
    have hbi := hbusy k info hk
    rw [hti] at hbi
    exact hbi

theorem C2_witness :
    GoodEvent initState (Event.register "p1" 10) ∧
    dictGet (mkClientId 0 10) sDisp.clients = some infoDisp ∧
    (infoDisp.busy = true ↔ ∃ tid, infoDisp.taskId = some tid ∧
      ∃ j t, sDisp.tasks.get? j = some t ∧ t.id = tid ∧
        t.status = Status.processing ∧
        t.client_id = some (mkClientId 0 10)) :=
  ⟨True.intro, by decide,
   C2_busy_iff sDisp
     (GoodReachable.step _ (GoodReachable.step _ (GoodReachable.step _
       GoodReachable.init True.intro) True.intro) True.intro)
     (mkClientId 0 10) infoDisp (by decide)⟩

end Veo3
